import Mathlib

/-!
Verification of the Knapsack-Problem-GA repository: a shallow embedding of the
genetic-algorithm engine (GA.cpp/GA.h), the knapsack cost function
(Knapsack.cpp/Knapsack.h) and the brute-force oracle (BruteForce.cpp), with
theorems settling the specification claims about them.

Modelling conventions:
* `std::size_t` values are modelled as `Nat` (no overflow is ever approached
  by the program: costs, weights and counts stay tiny).
* The population `std::unordered_map<std::size_t, Chromosome>` has dense keys
  `0 .. population_size-1` that are created once and never erased, so it is
  modelled as a list indexed by the chromosome identifier.  Iteration order of
  the map is unspecified in C++; the model iterates in identifier order, which
  is one admissible order (no claim depends on the order).
* The Mersenne-twister engine behind `rng_(max)` is modelled as an oracle
  stream `Nat → Nat` together with a cursor; a draw at cursor `i` with bound
  `max` yields `stream i % (max+1)`, which ranges over exactly the values
  `uniform_int_distribution<size_t>{0, max}` can produce.  Claims quantified
  over "every random draw" become claims quantified over every stream.
* `std::sort` with a strict-weak-order comparator may return any sorted
  permutation; the model commits to the stable insertion sort, which is one
  admissible outcome.  No settled claim depends on the order of ties.
* Loops whose termination depends on the random stream (the distinct-parent
  retry and the mutation loop) or that can run out of the chromosome (the
  repair back-extension, see `repair_back`) are modelled with fuel and return
  `Option`; `none` models non-termination or the out-of-bounds access.
-/

namespace KnapsackGA

/-- A gene of a binary chromosome: `Out` (0) or `In` (1);
mirrors `BinaryCostFunction::Gene`. -/
inductive Gene
  | Out
  | In
deriving DecidableEq, Repr

/-- `BinaryCostFunction::Chromosome = std::vector<Gene>`:
an ordered, fixed-length sequence of genes. -/
abbrev Chromosome := List Gene

/-- The abstract base class `BinaryCostFunction`: the number of decision
variables together with the pure virtual evaluation function implemented by a
derived class. -/
structure CostFunction where
  num_vars : Nat
  eval : Chromosome → Nat

/-- The state of `class Knapsack`: `(weight, price)` configuration pairs, the
weight capacity `max_weight_` and the item-count cap `num_items_`. -/
structure Knapsack where
  configurations : List (Nat × Nat)
  max_weight : Nat
  num_items : Nat
deriving Repr

/-- The accumulation loop of `Knapsack::eval` (Knapsack.cpp:36-44): walks the
chromosome, indexing `configurations_[index]`, and accumulates
`(current_weight, cost, num_items)`.  `getD` with default `(0,0)` stands for
the unchecked `configurations_[index]`; the settled claims only use it with
the index in bounds. -/
def Knapsack.evalGo (k : Knapsack) :
    List Gene → Nat → Nat → Nat → Nat → Nat × Nat × Nat
  | [], current_weight, cost, num_items, _index =>
      (current_weight, cost, num_items)
  | Gene.In :: rest, current_weight, cost, num_items, index =>
      let wp := k.configurations.getD index (0, 0)
      Knapsack.evalGo k rest (current_weight + wp.1) (cost + wp.2)
        (num_items + 1) (index + 1)
  | Gene.Out :: rest, current_weight, cost, num_items, index =>
      Knapsack.evalGo k rest current_weight cost num_items (index + 1)

/-- `Knapsack::eval` (Knapsack.cpp:30-51): accumulate weight, value and item
count over the genes marked `In`, then zero the cost when the weight capacity
or the item-count cap is exceeded. -/
def Knapsack.eval (k : Knapsack) (c : Chromosome) : Nat :=
  let acc := Knapsack.evalGo k c 0 0 0 0
  if acc.1 > k.max_weight ∨ acc.2.2 > k.num_items then 0 else acc.2.1

/-- The `BinaryCostFunction` view of a knapsack, as used through the virtual
call `cf_->eval`; `num_vars` is the constructor argument, which for every
instance in the repository equals the number of configurations. -/
def Knapsack.toCF (k : Knapsack) : CostFunction :=
  { num_vars := k.configurations.length, eval := k.eval }

/-- The configurations of the genes marked `In`: the declarative counterpart
of the accumulation in `Knapsack::eval` (position-wise pairing of the
chromosome with the configuration list). -/
def selectedConfigs (c : Chromosome) (cfgs : List (Nat × Nat)) :
    List (Nat × Nat) :=
  ((c.zip cfgs).filter (fun p => p.1 == Gene.In)).map (·.2)

/-- Total weight of the `In` genes. -/
def inWeight (c : Chromosome) (cfgs : List (Nat × Nat)) : Nat :=
  ((selectedConfigs c cfgs).map (·.1)).sum

/-- Total value of the `In` genes. -/
def inValue (c : Chromosome) (cfgs : List (Nat × Nat)) : Nat :=
  ((selectedConfigs c cfgs).map (·.2)).sum

/-- Number of genes marked `In`. -/
def inCount (c : Chromosome) : Nat := c.count Gene.In

lemma evalGo_spec (k : Knapsack) :
    ∀ (c : List Gene) (w v m i : Nat),
      i + c.length ≤ k.configurations.length →
      Knapsack.evalGo k c w v m i =
        (w + inWeight c (k.configurations.drop i),
         v + inValue c (k.configurations.drop i),
         m + inCount c) := by
  intro c
  induction c with
  | nil =>
      intro w v m i _
      simp [Knapsack.evalGo, inWeight, inValue, inCount, selectedConfigs]
  | cons g rest ih =>
      intro w v m i h
      have hi : i < k.configurations.length := by
        simp only [List.length_cons] at h; omega
      have hdrop : k.configurations.drop i =
          k.configurations.getD i (0, 0) :: k.configurations.drop (i + 1) := by
        rw [List.getD_eq_getElem _ _ hi]
        exact List.drop_eq_getElem_cons hi
      have h' : (i + 1) + rest.length ≤ k.configurations.length := by
        simp only [List.length_cons] at h; omega
      cases g with
      | In =>
          rw [Knapsack.evalGo, ih _ _ _ _ h', hdrop]
          simp [inWeight, inValue, inCount, selectedConfigs, List.count_cons]
          omega
      | Out =>
          rw [Knapsack.evalGo, ih _ _ _ _ h', hdrop]
          simp [inWeight, inValue, inCount, selectedConfigs, List.count_cons]

/-- C6 -- For every chromosome of length `num_vars` (= the number of
configurations), `Knapsack::eval` returns 0 when the total weight of the `In`
genes exceeds the capacity or the number of `In` genes exceeds the item-count
cap, and otherwise returns the sum of the values of the `In` genes. -/
theorem knapsack_eval_spec (k : Knapsack) (c : Chromosome)
    (h : c.length = k.configurations.length) :
    k.eval c =
      if inWeight c k.configurations > k.max_weight ∨
          inCount c > k.num_items then 0
      else inValue c k.configurations := by
  have hspec := evalGo_spec k c 0 0 0 0 (by omega)
  simp only [List.drop_zero, Nat.zero_add] at hspec
  unfold Knapsack.eval
  rw [hspec]

/-- Witness for C6: the reference knapsack instance number 1 of the project
handout (capacity 165, item cap 10) on a concrete feasible chromosome. -/
def cf1 : Knapsack :=
  { configurations := [(23, 92), (31, 57), (29, 49), (44, 68), (53, 60),
                       (38, 43), (63, 67), (85, 84), (89, 87), (82, 72)],
    max_weight := 165,
    num_items := 10 }

theorem knapsack_eval_spec_witness :
    cf1.eval [Gene.In, Gene.In, Gene.In, Gene.In, Gene.Out,
              Gene.Out, Gene.Out, Gene.Out, Gene.Out, Gene.Out] =
      if inWeight [Gene.In, Gene.In, Gene.In, Gene.In, Gene.Out,
              Gene.Out, Gene.Out, Gene.Out, Gene.Out, Gene.Out]
            cf1.configurations > cf1.max_weight ∨
          inCount [Gene.In, Gene.In, Gene.In, Gene.In, Gene.Out,
              Gene.Out, Gene.Out, Gene.Out, Gene.Out, Gene.Out] >
            cf1.num_items then 0
      else inValue [Gene.In, Gene.In, Gene.In, Gene.In, Gene.Out,
              Gene.Out, Gene.Out, Gene.Out, Gene.Out, Gene.Out]
            cf1.configurations :=
  knapsack_eval_spec cf1 _ (by decide)

/-! ### Greedy solver (`Knapsack::greedy_solve`, Knapsack.cpp:54-77) -/

/-- Stable insertion of a configuration into a list sorted by strictly
descending integer value/weight ratio.  Folding it left over the input models
one admissible outcome of `std::sort` with the comparator
`(i.second / i.first) > (j.second / j.first)` (Knapsack.cpp:57-60; the
division is integer division, and the order of ratio ties is unspecified). -/
def insertConfigDesc (x : Nat × Nat) : List (Nat × Nat) → List (Nat × Nat)
  | [] => [x]
  | y :: ys =>
      if x.2 / x.1 > y.2 / y.1 then x :: y :: ys else y :: insertConfigDesc x ys

/-- The sorted copy `configs_copy` of `Knapsack::greedy_solve`. -/
def sortConfigsDesc (l : List (Nat × Nat)) : List (Nat × Nat) :=
  l.foldl (fun acc x => insertConfigDesc x acc) []

/-- The admission loop of `Knapsack::greedy_solve` (Knapsack.cpp:64-75): for
each configuration of the sorted copy, admit it while both the weight and the
item-count constraint stay satisfied; the admitted item is marked `In` at the
position of the **first** configuration of the original list that compares
equal (`std::find` from `cbegin`). -/
def Knapsack.greedyGo (k : Knapsack) :
    List (Nat × Nat) → Chromosome → Nat → Nat → Nat → Nat × Chromosome
  | [], backpack, _current_weight, _num_items, cost => (cost, backpack)
  | config :: rest, backpack, current_weight, num_items, cost =>
      if current_weight + config.1 ≤ k.max_weight ∧
          num_items + 1 ≤ k.num_items then
        Knapsack.greedyGo k rest
          (backpack.set (k.configurations.indexOf config) Gene.In)
          (current_weight + config.1) (num_items + 1) (cost + config.2)
      else
        Knapsack.greedyGo k rest backpack current_weight num_items cost

/-- `Knapsack::greedy_solve` (Knapsack.cpp:54-77). -/
def Knapsack.greedy_solve (k : Knapsack) : Nat × Chromosome :=
  Knapsack.greedyGo k (sortConfigsDesc k.configurations)
    (List.replicate k.configurations.length Gene.Out) 0 0 0

/-- A knapsack instance with a duplicated configuration, as in handout
backpack 4 (`ProjectTester.cpp:22-24` passes `config(2, 5)` twice). -/
def kDup : Knapsack :=
  { configurations := [(2, 5), (2, 5)], max_weight := 10, num_items := 10 }

/-- C10 -- On an instance with a duplicated `(weight, value)` pair, the greedy
loop admits both copies, but `std::find` maps both to the first position, so
the achieved value returned is 10 while the returned chromosome evaluates to
only 5: the claim that the returned chromosome evaluates to the achieved value
fails on the code. -/
theorem greedy_solve_duplicate_bug :
    kDup.greedy_solve = (10, [Gene.In, Gene.Out]) ∧
      kDup.eval [Gene.In, Gene.Out] = 5 ∧ (5 : Nat) ≠ 10 := by
  refine ⟨by decide, by decide, by decide⟩

/-! ### Brute-force oracle (`BruteForce::solve`, BruteForce.cpp:13-31) -/

/-- All length-`n` chromosomes with exactly `k` genes `In`, in lexicographic
order with `Out < In`.  This models the inner do-while of `BruteForce::solve`
(BruteForce.cpp:23-29): at the start of each outer iteration the permutation
buffer holds the ascending-sorted arrangement of its multiset (all `Out`
genes, then the block of `In` genes), and iterating `std::next_permutation`
from it visits every arrangement of that multiset exactly once in
lexicographic order before wrapping back to the sorted arrangement and
returning `false`. -/
def arrangements : Nat → Nat → List Chromosome
  | 0, 0 => [[]]
  | 0, _ + 1 => []
  | n + 1, 0 => (arrangements n 0).map (Gene.Out :: ·)
  | n + 1, k + 1 =>
      (arrangements n (k + 1)).map (Gene.Out :: ·) ++
        (arrangements n k).map (Gene.In :: ·)

/-- The sequence of chromosomes evaluated by `BruteForce::solve`
(BruteForce.cpp:21-30): the outer loop runs `index` from `num_genes` down to
1; just before the iteration with a given `index`, the buffer is the sorted
arrangement with `num_genes - index` genes `In`, and `permutation[index-1] =
Gene::In` turns it into the sorted arrangement with one more `In` gene, whose
arrangements the do-while then evaluates.  So the `j`-th outer iteration
(0-based) evaluates exactly the arrangements with `j + 1` genes `In`. -/
def bfTrace (num_genes : Nat) : List Chromosome :=
  (List.range num_genes).flatMap (fun j => arrangements num_genes (j + 1))

/-- The `best_` update inside the do-while (BruteForce.cpp:24-28): replace the
stored best exactly when the evaluated cost is strictly greater. -/
def bfUpdate (cf : CostFunction) (best : Nat × Chromosome) (c : Chromosome) :
    Nat × Chromosome :=
  if cf.eval c > best.1 then (cf.eval c, c) else best

/-- The state of `class BruteForce`: an optional attached cost function
(`cf_`, a possibly-null pointer) and the `best_` pair. -/
structure BruteForce where
  cf : Option CostFunction
  best : Nat × Chromosome

/-- `BruteForce::set_cf` (BruteForce.cpp:8-11): attach the cost function and
reset `best_` to cost 0 with the all-`Out` chromosome. -/
def BruteForce.set_cf (cf : CostFunction) : BruteForce :=
  { cf := some cf, best := (0, List.replicate cf.num_vars Gene.Out) }

/-- `BruteForce::solve` (BruteForce.cpp:13-31): throws `invalid_argument` when
no cost function is attached; otherwise folds the best-update over the
evaluated sequence of chromosomes. -/
def BruteForce.solve (b : BruteForce) : Except String BruteForce :=
  match b.cf with
  | none => Except.error "The cost function has not been set."
  | some cf =>
      Except.ok { b with best := (bfTrace cf.num_vars).foldl (bfUpdate cf) b.best }

lemma mem_arrangements :
    ∀ (n k : Nat) (c : Chromosome),
      c ∈ arrangements n k ↔ c.length = n ∧ c.count Gene.In = k := by
  intro n
  induction n with
  | zero =>
      intro k c
      cases k with
      | zero =>
          simp only [arrangements, List.mem_singleton]
          constructor
          · rintro rfl; simp
          · rintro ⟨h, -⟩; exact List.length_eq_zero.mp h
      | succ k =>
          simp only [arrangements, List.not_mem_nil, false_iff, not_and]
          intro h
          rw [List.length_eq_zero.mp h]
          simp
  | succ n ih =>
      intro k c
      cases k with
      | zero =>
          simp only [arrangements, List.mem_map]
          constructor
          · rintro ⟨c', hc', rfl⟩
            have := (ih 0 c').mp hc'
            simp [this.1, this.2, List.count_cons]
          · intro ⟨hlen, hcnt⟩
            cases c with
            | nil => simp at hlen
            | cons g rest =>
                cases g with
                | Out =>
                    refine ⟨rest, (ih 0 rest).mpr ⟨by simpa using hlen, ?_⟩, rfl⟩
                    simpa [List.count_cons] using hcnt
                | In => simp [List.count_cons] at hcnt
      | succ k =>
          simp only [arrangements, List.mem_append, List.mem_map]
          constructor
          · rintro (⟨c', hc', rfl⟩ | ⟨c', hc', rfl⟩)
            · have := (ih (k + 1) c').mp hc'
              simp [this.1, this.2, List.count_cons]
            · have := (ih k c').mp hc'
              simp [this.1, this.2, List.count_cons]
          · intro ⟨hlen, hcnt⟩
            cases c with
            | nil => simp at hlen
            | cons g rest =>
                cases g with
                | Out =>
                    exact Or.inl ⟨rest, (ih (k + 1) rest).mpr
                      ⟨by simpa using hlen, by simpa [List.count_cons] using hcnt⟩, rfl⟩
                | In =>
                    exact Or.inr ⟨rest, (ih k rest).mpr
                      ⟨by simpa using hlen, by simpa [List.count_cons] using hcnt⟩, rfl⟩

lemma nodup_arrangements : ∀ n k : Nat, (arrangements n k).Nodup := by
  intro n
  induction n with
  | zero =>
      intro k
      cases k <;> simp [arrangements]
  | succ n ih =>
      intro k
      cases k with
      | zero =>
          exact (ih 0).map (fun a b h => by injection h)
      | succ k =>
          refine List.Nodup.append
            ((ih (k + 1)).map (fun a b h => by injection h))
            ((ih k).map (fun a b h => by injection h)) ?_
          intro c hc₁ hc₂
          rcases List.mem_map.mp hc₁ with ⟨a, -, rfl⟩
          rcases List.mem_map.mp hc₂ with ⟨b, -, hb⟩
          injection hb with h₁ h₂
          exact Gene.noConfusion h₁

lemma length_arrangements : ∀ n k : Nat, (arrangements n k).length = n.choose k := by
  intro n
  induction n with
  | zero =>
      intro k
      cases k <;> simp [arrangements]
  | succ n ih =>
      intro k
      cases k with
      | zero => simp [arrangements, ih 0]
      | succ k =>
          simp only [arrangements, List.length_append, List.length_map, ih,
            Nat.choose_succ_succ, Nat.succ_eq_add_one]
          omega

lemma sum_finset_range_eq_list (f : Nat → Nat) :
    ∀ n, (∑ i ∈ Finset.range n, f i) = ((List.range n).map f).sum := by
  intro n
  induction n with
  | zero => simp
  | succ n ih =>
      rw [Finset.sum_range_succ, List.range_succ]
      simp [ih]

lemma mem_bfTrace (n : Nat) (c : Chromosome) :
    c ∈ bfTrace n ↔ c.length = n ∧ 1 ≤ c.count Gene.In := by
  simp only [bfTrace, List.mem_flatMap, List.mem_range]
  constructor
  · rintro ⟨j, -, hj⟩
    have := (mem_arrangements n (j + 1) c).mp hj
    exact ⟨this.1, by omega⟩
  · intro ⟨hlen, hcnt⟩
    have hle : c.count Gene.In ≤ n := hlen ▸ c.count_le_length Gene.In
    refine ⟨c.count Gene.In - 1, by omega, (mem_arrangements n _ c).mpr ⟨hlen, by omega⟩⟩

lemma nodup_bfTrace (n : Nat) : (bfTrace n).Nodup := by
  refine List.nodup_flatMap.mpr ⟨fun j _ => nodup_arrangements n (j + 1), ?_⟩
  refine List.Pairwise.imp ?_ (List.nodup_range n)
  intro a b hab
  simp only [Function.onFun]
  intro c hca hcb
  have h1 := (mem_arrangements n (a + 1) c).mp hca
  have h2 := (mem_arrangements n (b + 1) c).mp hcb
  omega

lemma length_bfTrace (n : Nat) : (bfTrace n).length = 2 ^ n - 1 := by
  have hsum : (∑ i ∈ Finset.range (n + 1), n.choose i) = 2 ^ n :=
    Nat.sum_range_choose n
  rw [Finset.sum_range_succ'] at hsum
  simp only [Nat.choose_zero_right] at hsum
  have hlist : (∑ i ∈ Finset.range n, n.choose (i + 1)) =
      ((List.range n).map (fun j => n.choose (j + 1))).sum :=
    sum_finset_range_eq_list _ n
  have hlen : (bfTrace n).length =
      ((List.range n).map (fun j => n.choose (j + 1))).sum := by
    simp [bfTrace, List.length_flatMap, Function.comp_def, length_arrangements]
  omega

lemma bfFold_spec (cf : CostFunction) :
    ∀ (l : List Chromosome) (best : Nat × Chromosome),
      (l.foldl (bfUpdate cf) best = best ∨
        ((l.foldl (bfUpdate cf) best).2 ∈ l ∧
          cf.eval (l.foldl (bfUpdate cf) best).2 = (l.foldl (bfUpdate cf) best).1)) ∧
      best.1 ≤ (l.foldl (bfUpdate cf) best).1 ∧
      ∀ c ∈ l, cf.eval c ≤ (l.foldl (bfUpdate cf) best).1 := by
  intro l
  induction l with
  | nil => intro best; simp
  | cons c rest ih =>
      intro best
      simp only [List.foldl_cons]
      obtain ⟨hach, hmono, hall⟩ := ih (bfUpdate cf best c)
      by_cases h : cf.eval c > best.1
      · have hupd : bfUpdate cf best c = (cf.eval c, c) := by
          simp [bfUpdate, h]
        rw [hupd] at hach hmono hall ⊢
        refine ⟨?_, by omega, ?_⟩
        · rcases hach with h' | h'
          · exact Or.inr ⟨by rw [h']; exact List.mem_cons_self c rest, by rw [h']⟩
          · exact Or.inr ⟨List.mem_cons_of_mem c h'.1, h'.2⟩
        · intro d hd
          rcases List.mem_cons.mp hd with rfl | hd'
          · omega
          · exact hall d hd'
      · have hupd : bfUpdate cf best c = best := by
          simp only [bfUpdate, if_neg h]
        rw [hupd] at hach hmono hall ⊢
        refine ⟨?_, hmono, ?_⟩
        · rcases hach with h' | h'
          · exact Or.inl h'
          · exact Or.inr ⟨List.mem_cons_of_mem c h'.1, h'.2⟩
        · intro d hd
          rcases List.mem_cons.mp hd with rfl | hd'
          · omega
          · exact hall d hd'

/-- C9 (counterexample) -- With 2 decision variables the solver evaluates only
3 chromosomes, not `2^2 = 4`: the all-`Out` chromosome (`In`-count 0) is never
evaluated, so the claimed exhaustive coverage of every `In`-count down to 0
fails on the code. -/
theorem bruteforce_missing_empty_chromosome :
    (bfTrace 2).length ≠ 2 ^ 2 ∧ List.replicate 2 Gene.Out ∉ bfTrace 2 := by
  decide

/-- C9 (amended) -- `BruteForce::solve` evaluates exactly the `2^num_vars - 1`
chromosomes that have at least one `In` gene, each exactly once (`In`-counts 1
through `num_vars`, ascending); afterwards `best_` holds the maximum of 0 and
every evaluated cost, achieved by the stored chromosome — which is the initial
all-`Out` chromosome when no evaluated cost is positive; invoking `solve`
before a cost function is attached fails. -/
theorem bruteforce_solve_spec (cf : CostFunction) :
    (∀ c : Chromosome,
        c ∈ bfTrace cf.num_vars ↔ c.length = cf.num_vars ∧ 1 ≤ inCount c) ∧
    (bfTrace cf.num_vars).Nodup ∧
    (bfTrace cf.num_vars).length = 2 ^ cf.num_vars - 1 ∧
    (∃ b : BruteForce, (BruteForce.set_cf cf).solve = Except.ok b ∧
      (∀ c ∈ bfTrace cf.num_vars, cf.eval c ≤ b.best.1) ∧
      ((b.best.1 = 0 ∧ b.best.2 = List.replicate cf.num_vars Gene.Out) ∨
        (b.best.2 ∈ bfTrace cf.num_vars ∧ cf.eval b.best.2 = b.best.1))) ∧
    (∀ best₀, (BruteForce.mk none best₀).solve =
      Except.error "The cost function has not been set.") := by
  refine ⟨fun c => mem_bfTrace cf.num_vars c, nodup_bfTrace cf.num_vars,
    length_bfTrace cf.num_vars, ?_, fun _ => rfl⟩
  obtain ⟨hach, -, hall⟩ :=
    bfFold_spec cf (bfTrace cf.num_vars) (0, List.replicate cf.num_vars Gene.Out)
  refine ⟨⟨some cf,
    (bfTrace cf.num_vars).foldl (bfUpdate cf)
      (0, List.replicate cf.num_vars Gene.Out)⟩, rfl, hall, ?_⟩
  rcases hach with h | h
  · rw [h]; exact Or.inl ⟨rfl, rfl⟩
  · exact Or.inr h

/-! ### Repair (`GA::repair_`, GA.cpp:222-253)

The front phase walks `begin` forward with `std::find(begin, end, Gene::In)`,
the back phase walks a reverse iterator with
`std::find(rbegin, rend, Gene::Out)`.  Iterators are modelled as indices; the
reverse iterator `rbegin` pointing at element `j` is modelled by `j` itself,
and `rend` by the absence of a position (`Option`). -/

/-- The gene at position `i`: the dereference of an index into the
`std::vector<Gene>`.  All settled claims only ever use it in bounds, where
the default is irrelevant. -/
def geneAt (c : Chromosome) (i : Nat) : Gene := c.getD i Gene.Out

lemma geneAt_set_self (c : Chromosome) (i : Nat) (a : Gene) (h : i < c.length) :
    geneAt (c.set i a) i = a := by
  unfold geneAt
  rw [List.getD_eq_getElem?_getD, List.getElem?_set_self h, Option.getD_some]

lemma geneAt_set_ne (c : Chromosome) (i j : Nat) (a : Gene) (h : i ≠ j) :
    geneAt (c.set i a) j = geneAt c j := by
  unfold geneAt
  rw [List.getD_eq_getElem?_getD, List.getD_eq_getElem?_getD,
    List.getElem?_set_ne h]

lemma geneAt_replicate (n i : Nat) (a : Gene) (h : i < n) :
    geneAt (List.replicate n a) i = a := by
  unfold geneAt
  rw [List.getD_eq_getElem?_getD, List.getElem?_replicate_of_lt h,
    Option.getD_some]

lemma set_geneAt_self : ∀ (c : Chromosome) (i : Nat) (a : Gene),
    geneAt c i = a → c.set i a = c := by
  intro c
  induction c with
  | nil => intro i a _; rfl
  | cons x xs ih =>
      intro i a h
      cases i with
      | zero =>
          unfold geneAt at h
          simp only [List.getD_cons_zero] at h
          simp [h]
      | succ i =>
          unfold geneAt at h
          simp only [List.getD_cons_succ] at h
          simpa using ih i a h

lemma gene_out_or_in (g : Gene) : g = Gene.Out ∨ g = Gene.In := by
  cases g <;> simp

lemma eq_replicate_of_geneAt (c : Chromosome) (a : Gene)
    (h : ∀ t, t < c.length → geneAt c t = a) :
    c = List.replicate c.length a := by
  refine List.eq_replicate_iff.mpr ⟨rfl, ?_⟩
  intro b hb
  obtain ⟨i, hi, hget⟩ := List.mem_iff_getElem.mp hb
  have h2 := h i hi
  unfold geneAt at h2
  rw [List.getD_eq_getElem _ _ hi] at h2
  rw [← hget]
  exact h2

/-- The walk of `std::find(begin + pos, end, Gene::In)` over the remaining
genes, carrying the absolute position of the head. -/
def findInFromGo : List Gene → Nat → Nat
  | [], pos => pos
  | g :: rest, pos => if g = Gene.In then pos else findInFromGo rest (pos + 1)

/-- Index form of `std::find(begin + pos, end, Gene::In)` (used with
`pos ≤ c.length`): the first position at or after `pos` holding `In`, or
`c.length` (the `end` iterator) if there is none. -/
def findInFrom (c : Chromosome) (pos : Nat) : Nat :=
  findInFromGo (c.drop pos) pos

/-- The recurrence the C++ scan satisfies, for in-range cursors. -/
lemma findInFrom_eq (c : Chromosome) (pos : Nat) (hle : pos ≤ c.length) :
    findInFrom c pos =
      if pos < c.length then
        (if geneAt c pos = Gene.In then pos else findInFrom c (pos + 1))
      else c.length := by
  by_cases hp : pos < c.length
  · rw [if_pos hp]
    unfold findInFrom
    rw [List.drop_eq_getElem_cons hp, findInFromGo]
    unfold geneAt
    rw [List.getD_eq_getElem c Gene.Out hp]
  · rw [if_neg hp]
    have hpe : pos = c.length := by omega
    unfold findInFrom
    rw [List.drop_eq_nil_of_le (by omega), findInFromGo, hpe]

/-- Index form of `std::find(rbegin, rend, Gene::Out)` where `rbegin` points
at position `j`: the largest position `≤ j` holding `Out`; `none` models the
`rend` result. -/
def findOutDown (c : Chromosome) : Nat → Option Nat
  | 0 => if geneAt c 0 = Gene.Out then some 0 else none
  | j + 1 =>
      if geneAt c (j + 1) = Gene.Out then some (j + 1) else findOutDown c j

/-- The front do-while of `GA::repair_` (GA.cpp:230-233): set the gene at the
cursor to `Out`, advance the cursor to the next `In` gene, and repeat while
the evaluation is still 0 and the cursor has not reached the end.  `fuel`
bounds the number of iterations; the cursor strictly increases, so any fuel
exceeding `c.length` is enough. -/
def repair_front (cf : CostFunction) : Chromosome → Nat → Nat → Chromosome × Nat
  | c, pos, 0 => (c, pos)
  | c, pos, fuel + 1 =>
      let c' := c.set pos Gene.Out
      let pos' := findInFrom c' pos
      if cf.eval c' = 0 ∧ pos' ≠ c'.length then repair_front cf c' pos' fuel
      else (c', pos')

/-- The back do-while of `GA::repair_` (GA.cpp:235-245): find the first `Out`
gene scanning backwards from position `j`, set it to `In`, and repeat while
the evaluation is nonzero (after a successful in-bounds write the reverse
iterator cannot equal `rend`, so the `rbegin != rend` conjunct of the loop
condition is always true at that point).  When the backwards search runs past
the front of the chromosome, the C++ executes `*rbegin = Gene::In` with
`rbegin == rend` — an out-of-bounds write — modelled here by `none`.  On a
normal exit (evaluation 0) the trailing `if (rbegin != rend)` guard holds and
the last write is reverted. -/
def repair_back (cf : CostFunction) : Chromosome → Nat → Nat → Option Chromosome
  | _, _, 0 => none
  | c, j, fuel + 1 =>
      match findOutDown c j with
      | none => none
      | some j' =>
          let c' := c.set j' Gene.In
          if cf.eval c' ≠ 0 then repair_back cf c' j' fuel
          else some (c'.set j' Gene.Out)

/-- Repair of a single infeasible chromosome: the body of the per-chromosome
branch of `GA::repair_` (GA.cpp:226-245), front phase then back phase.  The
fuel arguments strictly dominate the possible iteration counts of the two
loops. -/
def repair_chromosome (cf : CostFunction) (c : Chromosome) : Option Chromosome :=
  let fr := repair_front cf c 0 (c.length + 1)
  repair_back cf fr.1 (fr.1.length - 1) (fr.1.length + 2)

lemma findInFrom_ge (c : Chromosome) : ∀ (d pos : Nat), c.length - pos ≤ d →
    pos ≤ c.length → pos ≤ findInFrom c pos := by
  intro d
  induction d with
  | zero =>
      intro pos h hle
      rw [findInFrom_eq c pos hle]
      have hnp : ¬pos < c.length := by omega
      rw [if_neg hnp]
      omega
  | succ d ih =>
      intro pos h hle
      rw [findInFrom_eq c pos hle]
      by_cases hp : pos < c.length
      · rw [if_pos hp]
        by_cases hg : geneAt c pos = Gene.In
        · rw [if_pos hg]
        · rw [if_neg hg]
          have := ih (pos + 1) (by omega) (by omega)
          omega
      · rw [if_neg hp]
        omega

lemma findInFrom_le_length (c : Chromosome) : ∀ (d pos : Nat),
    c.length - pos ≤ d → pos ≤ c.length → findInFrom c pos ≤ c.length := by
  intro d
  induction d with
  | zero =>
      intro pos h hle
      rw [findInFrom_eq c pos hle]
      have hnp : ¬pos < c.length := by omega
      rw [if_neg hnp]
  | succ d ih =>
      intro pos h hle
      rw [findInFrom_eq c pos hle]
      by_cases hp : pos < c.length
      · rw [if_pos hp]
        by_cases hg : geneAt c pos = Gene.In
        · rw [if_pos hg]; omega
        · rw [if_neg hg]
          exact ih (pos + 1) (by omega) (by omega)
      · rw [if_neg hp]

lemma findInFrom_mid (c : Chromosome) : ∀ (d pos t : Nat),
    c.length - pos ≤ d → pos ≤ c.length → pos ≤ t → t < findInFrom c pos →
    geneAt c t ≠ Gene.In := by
  intro d
  induction d with
  | zero =>
      intro pos t h hle hpt hlt
      rw [findInFrom_eq c pos hle] at hlt
      have hnp : ¬pos < c.length := by omega
      rw [if_neg hnp] at hlt
      intro _
      omega
  | succ d ih =>
      intro pos t h hle hpt hlt
      rw [findInFrom_eq c pos hle] at hlt
      by_cases hp : pos < c.length
      · rw [if_pos hp] at hlt
        by_cases hg : geneAt c pos = Gene.In
        · rw [if_pos hg] at hlt; omega
        · rw [if_neg hg] at hlt
          rcases Nat.eq_or_lt_of_le hpt with rfl | hpt'
          · exact hg
          · exact ih (pos + 1) t (by omega) (by omega) (by omega) hlt
      · rw [if_neg hp] at hlt
        intro _
        omega

lemma findInFrom_found (c : Chromosome) : ∀ (d pos : Nat), c.length - pos ≤ d →
    pos ≤ c.length → findInFrom c pos < c.length →
    geneAt c (findInFrom c pos) = Gene.In := by
  intro d
  induction d with
  | zero =>
      intro pos h hle hlt
      rw [findInFrom_eq c pos hle] at hlt
      have hnp : ¬pos < c.length := by omega
      rw [if_neg hnp] at hlt
      omega
  | succ d ih =>
      intro pos h hle hlt
      rw [findInFrom_eq c pos hle] at hlt ⊢
      by_cases hp : pos < c.length
      · rw [if_pos hp] at hlt ⊢
        by_cases hg : geneAt c pos = Gene.In
        · rw [if_pos hg] at hlt ⊢; exact hg
        · rw [if_neg hg] at hlt ⊢
          exact ih (pos + 1) (by omega) (by omega) hlt
      · rw [if_neg hp] at hlt
        omega

lemma findInFrom_replicate_out : ∀ (n pos : Nat), pos ≤ n →
    findInFrom (List.replicate n Gene.Out) pos = n := by
  intro n pos hle
  have h1 := findInFrom_le_length (List.replicate n Gene.Out) n pos
    (by simp) (by simpa using hle)
  rcases Nat.eq_or_lt_of_le h1 with he | hlt
  · simpa using he
  · exfalso
    have hfd := findInFrom_found (List.replicate n Gene.Out) n pos
      (by simp) (by simpa using hle) hlt
    rw [geneAt_replicate] at hfd
    · exact Gene.noConfusion hfd
    · have := hlt
      simpa using this

lemma findOutDown_some_spec (c : Chromosome) : ∀ (j j' : Nat),
    findOutDown c j = some j' →
    j' ≤ j ∧ geneAt c j' = Gene.Out ∧
      ∀ t, j' < t → t ≤ j → geneAt c t = Gene.In := by
  intro j
  induction j with
  | zero =>
      intro j' hfind
      rw [findOutDown] at hfind
      by_cases hg : geneAt c 0 = Gene.Out
      · rw [if_pos hg] at hfind
        injection hfind with h
        subst h
        exact ⟨Nat.le_refl 0, hg, fun t h1 h2 => by omega⟩
      · rw [if_neg hg] at hfind
        exact absurd hfind (by simp)
  | succ j ih =>
      intro j' hfind
      rw [findOutDown] at hfind
      by_cases hg : geneAt c (j + 1) = Gene.Out
      · rw [if_pos hg] at hfind
        injection hfind with h
        subst h
        exact ⟨Nat.le_refl _, hg, fun t h1 h2 => by omega⟩
      · rw [if_neg hg] at hfind
        obtain ⟨h1, h2, h3⟩ := ih j' hfind
        refine ⟨by omega, h2, fun t ht1 ht2 => ?_⟩
        rcases Nat.eq_or_lt_of_le ht2 with he | ht'
        · subst he
          rcases gene_out_or_in (geneAt c (j + 1)) with h | h
          · exact absurd h hg
          · exact h
        · exact h3 t ht1 (by omega)

lemma findOutDown_none_spec (c : Chromosome) : ∀ (j : Nat),
    findOutDown c j = none →
    ∀ t, t ≤ j → geneAt c t = Gene.In := by
  intro j
  induction j with
  | zero =>
      intro hfind t ht
      rw [findOutDown] at hfind
      by_cases hg : geneAt c 0 = Gene.Out
      · rw [if_pos hg] at hfind
        exact absurd hfind (by simp)
      · have ht0 : t = 0 := by omega
        subst ht0
        rcases gene_out_or_in (geneAt c 0) with h | h
        · exact absurd h hg
        · exact h
  | succ j ih =>
      intro hfind t ht
      rw [findOutDown] at hfind
      by_cases hg : geneAt c (j + 1) = Gene.Out
      · rw [if_pos hg] at hfind
        exact absurd hfind (by simp)
      · rw [if_neg hg] at hfind
        rcases Nat.eq_or_lt_of_le ht with he | ht'
        · subst he
          rcases gene_out_or_in (geneAt c (j + 1)) with h | h
          · exact absurd h hg
          · exact h
        · exact ih hfind t (by omega)

/-- Invariant-carrying specification of the front phase: the result has the
same length, the final cursor is at least 1 and bounded by the length, every
position before the final cursor is `Out`, and the result either evaluates
nonzero or is entirely `Out`. -/
lemma repair_front_spec (cf : CostFunction) : ∀ (fuel : Nat) (c : Chromosome) (pos : Nat),
    pos < c.length → c.length - pos < fuel →
    (∀ t, t < pos → geneAt c t = Gene.Out) →
    (repair_front cf c pos fuel).1.length = c.length ∧
    (repair_front cf c pos fuel).2 ≤ c.length ∧
    pos < (repair_front cf c pos fuel).2 ∧
    (∀ t, t < (repair_front cf c pos fuel).2 →
      geneAt (repair_front cf c pos fuel).1 t = Gene.Out) ∧
    (cf.eval (repair_front cf c pos fuel).1 ≠ 0 ∨
      (repair_front cf c pos fuel).1 = List.replicate c.length Gene.Out) := by
  intro fuel
  induction fuel with
  | zero => intro c pos h1 h2 _; omega
  | succ fuel ih =>
      intro c pos hpos hfuel hinv
      rw [repair_front]
      have hlen' : (c.set pos Gene.Out).length = c.length := by simp
      have hinv' : ∀ t, t < findInFrom (c.set pos Gene.Out) pos →
          geneAt (c.set pos Gene.Out) t = Gene.Out := by
        intro t ht
        by_cases htp : t < pos
        · rw [geneAt_set_ne c pos t Gene.Out (by omega)]
          exact hinv t htp
        · by_cases hte : t = pos
          · rw [hte]
            exact geneAt_set_self c pos Gene.Out (by omega)
          · have h1 : pos ≤ t := by omega
            rcases gene_out_or_in (geneAt (c.set pos Gene.Out) t) with h | h
            · exact h
            · exact absurd h (findInFrom_mid (c.set pos Gene.Out)
                (c.set pos Gene.Out).length pos t (by omega) (by omega) h1 ht)
      have hge : pos ≤ findInFrom (c.set pos Gene.Out) pos :=
        findInFrom_ge _ (c.set pos Gene.Out).length pos (by omega) (by omega)
      have hgt : pos < findInFrom (c.set pos Gene.Out) pos := by
        rcases Nat.eq_or_lt_of_le hge with he | h
        · exfalso
          have hfound : findInFrom (c.set pos Gene.Out) pos <
              (c.set pos Gene.Out).length := by rw [hlen']; omega
          have hfd := findInFrom_found (c.set pos Gene.Out)
            (c.set pos Gene.Out).length pos (by omega) (by omega) hfound
          rw [← he] at hfd
          rw [geneAt_set_self c pos Gene.Out (by omega)] at hfd
          exact Gene.noConfusion hfd
        · exact h
      have hle : findInFrom (c.set pos Gene.Out) pos ≤ c.length := by
        have := findInFrom_le_length (c.set pos Gene.Out)
          (c.set pos Gene.Out).length pos (by omega) (by rw [hlen']; omega)
        omega
      by_cases hcond : cf.eval (c.set pos Gene.Out) = 0 ∧
          findInFrom (c.set pos Gene.Out) pos ≠ (c.set pos Gene.Out).length
      · rw [if_pos hcond]
        have hlt : findInFrom (c.set pos Gene.Out) pos <
            (c.set pos Gene.Out).length := by
          rcases hcond with ⟨-, hne⟩
          rw [hlen'] at hne ⊢
          omega
        obtain ⟨r1, r2, r3, r4, r5⟩ := ih (c.set pos Gene.Out)
          (findInFrom (c.set pos Gene.Out) pos) hlt (by rw [hlen']; omega) hinv'
        rw [hlen'] at r1 r2 r5
        exact ⟨r1, r2, by omega, r4, r5⟩
      · rw [if_neg hcond]
        refine ⟨hlen', by simpa [hlen'] using hle, hgt, hinv', ?_⟩
        rw [Classical.not_and_iff_or_not_not] at hcond
        rcases hcond with h | h
        · exact Or.inl h
        · rw [hlen'] at h
          push_neg at h
          refine Or.inr ?_
          have hall : ∀ t, t < (c.set pos Gene.Out).length →
              geneAt (c.set pos Gene.Out) t = Gene.Out := by
            intro t ht
            exact hinv' t (by omega)
          have := eq_replicate_of_geneAt (c.set pos Gene.Out) Gene.Out hall
          rw [hlen'] at this
          exact this

/-- The back phase only ends normally in its argument (first-write reverted)
or in a state that evaluates nonzero. -/
lemma repair_back_post (cf : CostFunction) : ∀ (fuel : Nat) (c : Chromosome) (j : Nat) (r : Chromosome),
    repair_back cf c j fuel = some r → cf.eval r ≠ 0 ∨ r = c := by
  intro fuel
  induction fuel with
  | zero => intro c j r h; exact absurd h (by simp [repair_back])
  | succ fuel ih =>
      intro c j r h
      rw [repair_back] at h
      cases hfind : findOutDown c j with
      | none => rw [hfind] at h; exact absurd h (by simp)
      | some j' =>
          rw [hfind] at h
          simp only at h
          by_cases hev : cf.eval (c.set j' Gene.In) ≠ 0
          · rw [if_pos hev] at h
            rcases ih (c.set j' Gene.In) j' r h with h' | h'
            · exact Or.inl h'
            · rw [h']
              exact Or.inl hev
          · rw [if_neg hev] at h
            injection h with h
            obtain ⟨-, hout, -⟩ := findOutDown_some_spec c j j' hfind
            rw [List.set_set] at h
            rw [← h]
            exact Or.inr (set_geneAt_self c j' Gene.Out hout)

lemma repair_back_length (cf : CostFunction) : ∀ (fuel : Nat) (c : Chromosome) (j : Nat) (r : Chromosome),
    repair_back cf c j fuel = some r → r.length = c.length := by
  intro fuel
  induction fuel with
  | zero => intro c j r h; exact absurd h (by simp [repair_back])
  | succ fuel ih =>
      intro c j r h
      rw [repair_back] at h
      cases hfind : findOutDown c j with
      | none => rw [hfind] at h; exact absurd h (by simp)
      | some j' =>
          rw [hfind] at h
          simp only at h
          by_cases hev : cf.eval (c.set j' Gene.In) ≠ 0
          · rw [if_pos hev] at h
            have := ih (c.set j' Gene.In) j' r h
            simpa using this
          · rw [if_neg hev] at h
            injection h with h
            rw [← h]
            simp

lemma getD_set_ne_generic {α : Type} (l : List α) (i j : Nat) (a d : α)
    (h : i ≠ j) : (l.set i a).getD j d = l.getD j d := by
  rw [List.getD_eq_getElem?_getD, List.getD_eq_getElem?_getD,
    List.getElem?_set_ne h]

lemma getD_set_self_generic {α : Type} (l : List α) (i : Nat) (a d : α)
    (h : i < l.length) : (l.set i a).getD i d = a := by
  rw [List.getD_eq_getElem?_getD, List.getElem?_set_self h, Option.getD_some]

lemma count_out_set_in : ∀ (c : Chromosome) (i : Nat), i < c.length →
    geneAt c i = Gene.Out →
    (c.set i Gene.In).count Gene.Out + 1 = c.count Gene.Out := by
  intro c
  induction c with
  | nil => intro i h _; simp at h
  | cons x xs ih =>
      intro i h hg
      cases i with
      | zero =>
          unfold geneAt at hg
          simp only [List.getD_cons_zero] at hg
          subst hg
          simp [List.count_cons]
      | succ i =>
          unfold geneAt at hg
          simp only [List.getD_cons_succ] at hg
          simp only [List.length_cons] at h
          simp only [List.set_cons_succ, List.count_cons]
          have := ih i (by omega) hg
          omega

lemma findOutDown_here (c : Chromosome) (j : Nat) (h : geneAt c j = Gene.Out) :
    findOutDown c j = some j := by
  cases j with
  | zero => rw [findOutDown, if_pos h]
  | succ j => rw [findOutDown, if_pos h]

/-- Fuel sufficiency for the back phase: when the fully-`In` chromosome
evaluates to 0 (true in particular for every shipped knapsack instance,
whose full selection exceeds the capacity), the backwards search always finds
an `Out` gene before the loop can overrun, so the phase ends normally. -/
lemma repair_back_some (cf : CostFunction) : ∀ (fuel : Nat) (c : Chromosome) (j : Nat),
    j < c.length →
    (∀ t, j < t → t < c.length → geneAt c t = Gene.In) →
    (cf.eval c ≠ 0 ∨ ∃ t, t ≤ j ∧ geneAt c t = Gene.Out) →
    cf.eval (List.replicate c.length Gene.In) = 0 →
    (c.take (j + 1)).count Gene.Out < fuel →
    (repair_back cf c j fuel).isSome := by
  intro fuel
  induction fuel with
  | zero => intro c j h1 h2 h3 h4 h5; omega
  | succ fuel ih =>
      intro c j hj hinv hpre hfull hfuel
      rw [repair_back]
      cases hfind : findOutDown c j with
      | none =>
          exfalso
          have hall := findOutDown_none_spec c j hfind
          have hrepl : c = List.replicate c.length Gene.In := by
            refine eq_replicate_of_geneAt c Gene.In ?_
            intro t ht
            by_cases htj : t ≤ j
            · exact hall t htj
            · exact hinv t (by omega) ht
          rcases hpre with h | ⟨t, ht, hout⟩
          · rw [hrepl] at h
            exact h hfull
          · have hin := hall t ht
            rw [hout] at hin
            exact Gene.noConfusion hin
      | some j' =>
          obtain ⟨hj'le, hout, hmid⟩ := findOutDown_some_spec c j j' hfind
          have hj'lt : j' < c.length := by omega
          simp only
          by_cases hev : cf.eval (c.set j' Gene.In) ≠ 0
          · rw [if_pos hev]
            refine ih (c.set j' Gene.In) j' (by simpa using hj'lt) ?_
              (Or.inl hev) (by simpa using hfull) ?_
            · intro t ht1 ht2
              have ht2' : t < c.length := by simpa using ht2
              rw [geneAt_set_ne c j' t Gene.In (by omega)]
              by_cases htj : t ≤ j
              · exact hmid t ht1 htj
              · exact hinv t (by omega) ht2'
            · have htake : (c.set j' Gene.In).take (j' + 1) =
                  (c.take (j' + 1)).set j' Gene.In := List.set_take
              have hlen6 : j' < (c.take (j' + 1)).length := by
                rw [List.length_take]
                omega
              have h7 : geneAt (c.take (j' + 1)) j' = Gene.Out := by
                unfold geneAt
                unfold geneAt at hout
                rw [List.getD_eq_getElem?_getD,
                  List.getElem?_take_of_lt (Nat.lt_succ_self j')]
                rw [List.getD_eq_getElem?_getD] at hout
                exact hout
              have h8 := count_out_set_in (c.take (j' + 1)) j' hlen6 h7
              have h9 : (c.take (j' + 1)).count Gene.Out ≤
                  (c.take (j + 1)).count Gene.Out :=
                (List.take_prefix_take_left c (by omega)).count_le Gene.Out
              rw [htake]
              omega
          · rw [if_neg hev]
            simp

/-- Feasibility postcondition of a completed single-chromosome repair: the
result is entirely `Out` or evaluates nonzero. -/
lemma repair_chromosome_post (cf : CostFunction) (c r : Chromosome)
    (hn : 1 ≤ c.length) (h : repair_chromosome cf c = some r) :
    r = List.replicate c.length Gene.Out ∨ cf.eval r ≠ 0 := by
  unfold repair_chromosome at h
  simp only at h
  obtain ⟨f1, f2, f3, f4, f5⟩ := repair_front_spec cf (c.length + 1) c 0
    (by omega) (by omega) (fun t ht => absurd ht (Nat.not_lt_zero t))
  rcases repair_back_post cf _ _ _ _ h with h' | h'
  · exact Or.inr h'
  · rcases f5 with h5 | h5
    · rw [h']
      exact Or.inr h5
    · rw [h', h5]
      exact Or.inl rfl

/-- Single-chromosome repair completes (no out-of-bounds access) whenever the
fully-`In` chromosome evaluates to 0. -/
lemma repair_chromosome_isSome (cf : CostFunction) (c : Chromosome)
    (hn : 1 ≤ c.length)
    (hfull : cf.eval (List.replicate c.length Gene.In) = 0) :
    (repair_chromosome cf c).isSome := by
  unfold repair_chromosome
  simp only
  obtain ⟨f1, f2, f3, f4, f5⟩ := repair_front_spec cf (c.length + 1) c 0
    (by omega) (by omega) (fun t ht => absurd ht (Nat.not_lt_zero t))
  refine repair_back_some cf _ (repair_front cf c 0 (c.length + 1)).1
    ((repair_front cf c 0 (c.length + 1)).1.length - 1) (by omega) ?_ ?_ ?_ ?_
  · intro t ht1 ht2
    omega
  · exact Or.inr ⟨0, by omega, f4 0 (by omega)⟩
  · rw [f1]
    exact hfull
  · have hcl := List.count_le_length Gene.Out
      ((repair_front cf c 0 (c.length + 1)).1.take
        ((repair_front cf c 0 (c.length + 1)).1.length - 1 + 1))
    have hlt : ((repair_front cf c 0 (c.length + 1)).1.take
        ((repair_front cf c 0 (c.length + 1)).1.length - 1 + 1)).length ≤
        (repair_front cf c 0 (c.length + 1)).1.length := by
      rw [List.length_take]
      omega
    omega

/-- Repair of an entirely-`Out` chromosome that stays infeasible after adding
the last gene is the identity: the degenerate chromosome is left
empty/infeasible. -/
lemma repair_chromosome_allOut (cf : CostFunction) (n : Nat) (h1 : 1 ≤ n)
    (_h2 : cf.eval (List.replicate n Gene.Out) = 0)
    (h3 : cf.eval ((List.replicate n Gene.Out).set (n - 1) Gene.In) = 0) :
    repair_chromosome cf (List.replicate n Gene.Out) =
      some (List.replicate n Gene.Out) := by
  have hset0 : (List.replicate n Gene.Out).set 0 Gene.Out =
      List.replicate n Gene.Out :=
    set_geneAt_self _ 0 _ (geneAt_replicate n 0 Gene.Out (by omega))
  have hfront : repair_front cf (List.replicate n Gene.Out) 0 (n + 1) =
      (List.replicate n Gene.Out, n) := by
    rw [repair_front]
    simp only [hset0, findInFrom_replicate_out n 0 (by omega),
      List.length_replicate]
    simp
  unfold repair_chromosome
  simp only [List.length_replicate]
  rw [hfront]
  simp only [List.length_replicate]
  rw [repair_back]
  rw [findOutDown_here _ _ (geneAt_replicate n (n - 1) Gene.Out (by omega))]
  simp only
  rw [if_neg (not_ne_iff.mpr h3)]
  rw [List.set_set]
  rw [set_geneAt_self _ _ _ (geneAt_replicate n (n - 1) Gene.Out (by omega))]

/-- The per-chromosome loop of `GA::repair_` (GA.cpp:223-248) starting at
identifier `id`, with `fuel` counting the identifiers still to visit
(`unordered_map` iteration order is unspecified in C++; identifier order is
one admissible order).  Each chromosome whose recorded cost is 0 is repaired
in place; the Boolean accumulates `repair_flag`; the returned list logs the
repaired identifiers. -/
def repair_loop (cf : CostFunction) (costs : List Nat) :
    List Chromosome → Nat → Bool → Nat →
      Option (List Chromosome × Bool × List Nat)
  | pop, _id, flag, 0 => some (pop, flag, [])
  | pop, id, flag, fuel + 1 =>
      if costs.getD id 0 = 0 then
        match repair_chromosome cf (pop.getD id []) with
        | none => none
        | some r =>
            match repair_loop cf costs (pop.set id r) (id + 1) true fuel with
            | none => none
            | some (p, f, log) => some (p, f, id :: log)
      else repair_loop cf costs pop (id + 1) flag fuel

lemma repair_loop_spec (cf : CostFunction) (costs : List Nat) :
    ∀ (fuel : Nat) (pop : List Chromosome) (id : Nat) (flag : Bool)
      (pop' : List Chromosome) (flag' : Bool) (log : List Nat),
      id + fuel = pop.length →
      repair_loop cf costs pop id flag fuel = some (pop', flag', log) →
      pop'.length = pop.length ∧
      (∀ t, t < id → pop'.getD t [] = pop.getD t []) ∧
      (∀ t, id ≤ t → t < pop.length →
        (costs.getD t 0 = 0 →
          repair_chromosome cf (pop.getD t []) = some (pop'.getD t [])) ∧
        (costs.getD t 0 ≠ 0 → pop'.getD t [] = pop.getD t [])) ∧
      (∀ t ∈ log, id ≤ t ∧ costs.getD t 0 = 0) := by
  intro fuel
  induction fuel with
  | zero =>
      intro pop id flag pop' flag' log hfuel h
      rw [repair_loop] at h
      injection h with h
      injection h with h1 h
      injection h with h2 h3
      subst h1
      subst h3
      refine ⟨rfl, fun t _ => rfl, fun t ht1 ht2 => absurd ht2 (by omega), ?_⟩
      intro t ht
      exact absurd ht (List.not_mem_nil t)
  | succ fuel ih =>
      intro pop id flag pop' flag' log hfuel h
      have hid : id < pop.length := by omega
      rw [repair_loop] at h
      by_cases hc : costs.getD id 0 = 0
      · rw [if_pos hc] at h
        cases hrep : repair_chromosome cf (pop.getD id []) with
        | none => rw [hrep] at h; exact absurd h (by simp)
        | some r =>
            rw [hrep] at h
            simp only at h
            cases hrec : repair_loop cf costs (pop.set id r) (id + 1) true fuel with
            | none => rw [hrec] at h; exact absurd h (by simp)
            | some res =>
                obtain ⟨p, f, log₁⟩ := res
                rw [hrec] at h
                simp only at h
                injection h with h
                injection h with h1 h
                injection h with h2 h3
                subst h1
                subst h3
                obtain ⟨L1, L2, L3, L4⟩ := ih (pop.set id r) (id + 1) true
                  p f log₁ (by simp; omega) hrec
                have hplen : p.length = pop.length := by simpa using L1
                refine ⟨hplen, ?_, ?_, ?_⟩
                · intro t ht
                  rw [L2 t (by omega)]
                  exact getD_set_ne_generic pop id t r [] (by omega)
                · intro t ht1 ht2
                  rcases Nat.eq_or_lt_of_le ht1 with he | ht1'
                  · subst he
                    constructor
                    · intro _
                      rw [L2 id (by omega)]
                      rw [getD_set_self_generic pop id r [] hid]
                      exact hrep
                    · intro hne
                      exact absurd hc hne
                  · have hmain := L3 t (by omega) (by simpa using ht2)
                    constructor
                    · intro hc0
                      have := hmain.1 hc0
                      rw [getD_set_ne_generic pop id t r [] (by omega)] at this
                      exact this
                    · intro hne
                      have := hmain.2 hne
                      rw [getD_set_ne_generic pop id t r [] (by omega)] at this
                      exact this
                · intro t ht
                  rcases List.mem_cons.mp ht with rfl | ht'
                  · exact ⟨Nat.le_refl t, hc⟩
                  · have := L4 t ht'
                    exact ⟨by omega, this.2⟩
      · rw [if_neg hc] at h
        obtain ⟨L1, L2, L3, L4⟩ := ih pop (id + 1) flag pop' flag' log
          (by omega) h
        refine ⟨L1, ?_, ?_, ?_⟩
        · intro t ht
          exact L2 t (by omega)
        · intro t ht1 ht2
          rcases Nat.eq_or_lt_of_le ht1 with he | ht1'
          · subst he
            constructor
            · intro hc0
              exact absurd hc0 hc
            · intro _
              exact L2 id (by omega)
          · exact L3 t (by omega) ht2
        · intro t ht
          have := L4 t ht
          exact ⟨by omega, this.2⟩

/-- A knapsack whose single item does not fit: chromosome `[In]` is
infeasible (cost 0) and is repaired to the empty chromosome. -/
def kInfeasible : Knapsack :=
  { configurations := [(2, 1)], max_weight := 1, num_items := 1 }

/-- C5 -- For every population state whose repair pass completes, every
chromosome whose recorded cost was 0 is, afterwards, either entirely `Out` or
evaluates to a nonzero cost; the repair procedure itself (front removal, back
re-extension, final revert) is the definition `repair_chromosome`, translated
from GA.cpp:226-245, and `repair_loop` applies it exactly to the recorded
cost-0 chromosomes. -/
theorem repair_restores_feasibility (cf : CostFunction)
    (pop pop' : List Chromosome) (costs : List Nat) (flag : Bool)
    (log : List Nat)
    (hne : ∀ c ∈ pop, 1 ≤ c.length)
    (h : repair_loop cf costs pop 0 false pop.length = some (pop', flag, log)) :
    ∀ id, id < pop.length → costs.getD id 0 = 0 →
      pop'.getD id [] = List.replicate (pop.getD id []).length Gene.Out ∨
        cf.eval (pop'.getD id []) ≠ 0 := by
  obtain ⟨-, -, L3, -⟩ := repair_loop_spec cf costs pop.length pop 0 false
    pop' flag log (by omega) h
  intro id hid hc0
  have hrep := (L3 id (by omega) hid).1 hc0
  have hmem : pop.getD id [] ∈ pop := by
    rw [List.getD_eq_getElem _ _ hid]
    exact pop.getElem_mem hid
  exact repair_chromosome_post cf (pop.getD id []) (pop'.getD id [])
    (hne _ hmem) hrep

theorem repair_restores_feasibility_witness :
    [[Gene.Out]].getD 0 [] =
        List.replicate ([[Gene.In]].getD 0 []).length Gene.Out ∨
      kInfeasible.toCF.eval ([[Gene.Out]].getD 0 []) ≠ 0 :=
  repair_restores_feasibility kInfeasible.toCF [[Gene.In]] [[Gene.Out]] [0]
    true [0] (by decide) (by decide) 0 (by decide) (by decide)

/-- A legitimate cost function (the abstract `BinaryCostFunction::eval` is any
pure function): the number of `In` genes.  Under it every extension of the
chromosome stays nonzero, so repair's back phase never reaches a zero
evaluation. -/
def popcountCF : CostFunction := { num_vars := 2, eval := fun c => inCount c }

/-- C7 (counterexample) -- The back-extension write `*rbegin = Gene::In`
(GA.cpp:239) is executed **before** any bounds check: under `popcountCF` the
all-`Out` chromosome of length 2 has recorded cost 0, and its repair runs the
backwards search past the front of the chromosome and dereferences `rend`
(modelled by `none`), refuting the claim that every gene access checks bounds
before dereferencing. -/
theorem repair_back_oob_counterexample :
    popcountCF.eval [Gene.Out, Gene.Out] = 0 ∧
      repair_chromosome popcountCF [Gene.Out, Gene.Out] = none := by
  constructor
  · decide
  · decide

/-- C7 (amended) -- The final revert is guarded by a bounds check, but the
back-extension write is not; repair stays in bounds and terminates provided
the fully-`In` chromosome evaluates to 0 (as for every shipped knapsack
instance, whose full selection is infeasible), and in the degenerate case of
an entirely-`Out` chromosome that stays infeasible after re-adding its last
gene it terminates leaving the chromosome empty/infeasible. -/
theorem repair_in_bounds_of_full_infeasible (cf : CostFunction)
    (c : Chromosome) (hn : 1 ≤ c.length)
    (hfull : cf.eval (List.replicate c.length Gene.In) = 0) :
    (repair_chromosome cf c).isSome ∧
      (c = List.replicate c.length Gene.Out →
        cf.eval (List.replicate c.length Gene.Out) = 0 →
        cf.eval ((List.replicate c.length Gene.Out).set (c.length - 1)
          Gene.In) = 0 →
        repair_chromosome cf c = some c) := by
  refine ⟨repair_chromosome_isSome cf c hn hfull, ?_⟩
  intro hall h2 h3
  rw [hall]
  rw [hall] at hn ⊢
  simp only [List.length_replicate] at *
  exact repair_chromosome_allOut cf c.length hn h2 h3

theorem repair_in_bounds_of_full_infeasible_witness :
    (repair_chromosome kInfeasible.toCF [Gene.Out]).isSome ∧
      ([Gene.Out] = List.replicate ([Gene.Out] : Chromosome).length Gene.Out →
        kInfeasible.toCF.eval
          (List.replicate ([Gene.Out] : Chromosome).length Gene.Out) = 0 →
        kInfeasible.toCF.eval
          ((List.replicate ([Gene.Out] : Chromosome).length Gene.Out).set
            (([Gene.Out] : Chromosome).length - 1) Gene.In) = 0 →
        repair_chromosome kInfeasible.toCF [Gene.Out] = some [Gene.Out]) :=
  repair_in_bounds_of_full_infeasible kInfeasible.toCF [Gene.Out]
    (by decide) (by decide)


/-! ### The GA engine (`GA.h`, `GA.cpp`)

The engine state couples an `unordered_map` population (dense identifiers,
modelled as a list indexed by identifier), the ranking, the cost table and
the best-cost history.  The Mersenne twister behind `rng_` is an oracle
stream with a cursor (see the file header). -/

/-- The parameters fixed by `GA::set_cf` and `GA::set_parameters`
(GA.cpp:17-54).  `num_mutations` is
`static_cast<size_t>(mutation_rate * population_size_ * cf_->num_vars())`
(GA.cpp:40) — the cast truncates toward zero, i.e. takes the floor;
`chromosome_size` is synced to `cf.num_vars` by `set_cf`. -/
structure GAParams where
  cf : CostFunction
  population_size : Nat
  num_elite : Nat
  tournament_size : Nat
  num_mutations : Nat
  chromosome_size : Nat

/-- The mutable engine state (GA.h:67-70) plus the stream cursor. -/
structure GAState where
  population : List Chromosome
  ranks : List Nat
  costs : List Nat
  best_costs : List Nat
  rng_index : Nat
deriving Repr, DecidableEq

/-- `GA::rng_(max)` (GA.h:114): the draw at cursor `i`, in `[0, max]`. -/
def rng (stream : Nat → Nat) (i max : Nat) : Nat := stream i % (max + 1)

/-- `GA::cost_` (GA.h:85). -/
def cost_ (costs : List Nat) (chromosome_no : Nat) : Nat :=
  costs.getD chromosome_no 0

/-- `GA::chromosome_at_rank_` (GA.h:88). -/
def chromosome_at_rank_ (ranks : List Nat) (rank : Nat) : Nat :=
  ranks.getD rank 0

/-- The fold of `std::max_element` over the tournament pool (GA.cpp:158-159):
the champion is replaced only on strictly greater cost, so the earliest
maximum wins. -/
def max_element_by_cost (costs : List Nat) : Nat → List Nat → Nat
  | best, [] => best
  | best, x :: xs =>
      if cost_ costs best < cost_ costs x then max_element_by_cost costs x xs
      else max_element_by_cost costs best xs

/-- `GA::select_` (GA.cpp:152-160): fill a pool of `tournament_size`
identifiers drawn uniformly with replacement, return its earliest
highest-cost member together with the advanced cursor. -/
def select_ (p : GAParams) (stream : Nat → Nat) (costs : List Nat) (i : Nat) :
    Nat × Nat :=
  let participants := (List.range p.tournament_size).map
    (fun t => rng stream (i + t) (p.population_size - 1))
  (match participants with
   | [] => 0
   | x :: xs => max_element_by_cost costs x xs,
   i + p.tournament_size)

/-- The distinct-parent retry of `GA::new_population` (GA.cpp:72-76): redraw
parent 2 while it equals parent 1.  The C++ loop does not terminate on an
adversarial stream (and never terminates when `population_size = 1`), hence
fuel and `Option`. -/
def draw_parent2 (p : GAParams) (stream : Nat → Nat) (costs : List Nat)
    (parent1 : Nat) : Nat → Nat → Option (Nat × Nat)
  | _i, 0 => none
  | i, fuel + 1 =>
      let sel := select_ p stream costs i
      if sel.1 = parent1 then draw_parent2 p stream costs parent1 sel.2 fuel
      else some sel

/-- `GA::cross_` (GA.cpp:181-196): the higher-cost parent becomes parent 1
(`std::swap` only when `cost_(p2) > cost_(p1)`, so a cost tie keeps the call
order); the child is the first `mid = (chromosome_size_ + 2 - 1) / 2` genes
of parent 1 followed by the genes of parent 2 from `mid` on. -/
def cross_ (p : GAParams) (costs : List Nat) (pop : List Chromosome)
    (p1_chromosome_no p2_chromosome_no : Nat) : Chromosome :=
  let pr :=
    if cost_ costs p2_chromosome_no > cost_ costs p1_chromosome_no then
      (p2_chromosome_no, p1_chromosome_no)
    else (p1_chromosome_no, p2_chromosome_no)
  let mid := (p.chromosome_size + 2 - 1) / 2
  (pop.getD pr.1 []).take mid ++ (pop.getD pr.2 []).drop mid

/-- The replacement loop of `GA::new_population` (GA.cpp:65-80): for every
rank from `num_elite` up (`left` counts the ranks still to do), select two
distinct parents from the old population and write their child into the new
buffer at the identifier occupying that rank. -/
def cross_loop (p : GAParams) (stream : Nat → Nat) (costs : List Nat)
    (pop : List Chromosome) (ranks : List Nat) (retry_fuel : Nat) :
    List Chromosome → Nat → Nat → Nat → Option (List Chromosome × Nat)
  | new_pop, _rank, i, 0 => some (new_pop, i)
  | new_pop, rank, i, left + 1 =>
      let sel1 := select_ p stream costs i
      match draw_parent2 p stream costs sel1.1 sel1.2 retry_fuel with
      | none => none
      | some (parent2, i₂) =>
          let child := cross_ p costs pop sel1.1 parent2
          cross_loop p stream costs pop ranks retry_fuel
            (new_pop.set (chromosome_at_rank_ ranks rank) child)
            (rank + 1) i₂ left

/-- The evaluation pass of `GA::calculate_costs_` (GA.cpp:140-143): update
`costs_[ranks_[rank]]` for `left` ranks starting at `rank`, logging the
evaluated identifiers in order. -/
def eval_ranks (cf : CostFunction) (pop : List Chromosome) (ranks : List Nat) :
    List Nat → Nat → Nat → List Nat × List Nat
  | costs, _rank, 0 => (costs, [])
  | costs, rank, left + 1 =>
      let no := chromosome_at_rank_ ranks rank
      let costs' := costs.set no (cf.eval (pop.getD no []))
      let r := eval_ranks cf pop ranks costs' (rank + 1) left
      (r.1, no :: r.2)

/-- Stable insertion into a ranking sorted by strictly descending cost;
folding it left models one admissible outcome of `std::sort` with the
comparator `cost_(i) > cost_(j)` (GA.cpp:145-146; tie order unspecified). -/
def insertRankDesc (costs : List Nat) (x : Nat) : List Nat → List Nat
  | [] => [x]
  | y :: ys =>
      if cost_ costs x > cost_ costs y then x :: y :: ys
      else y :: insertRankDesc costs x ys

/-- The re-sort of `GA::calculate_costs_` (GA.cpp:145-146). -/
def sortRanksDesc (costs : List Nat) (ranks : List Nat) : List Nat :=
  ranks.foldl (fun acc x => insertRankDesc costs x acc) []

/-- `GA::calculate_costs_(num_elite)` (GA.cpp:138-147): recompute the costs
of the identifiers at rank `num_elite` or worse, then re-sort the ranking.
Returns (costs, ranks, evaluation log). -/
def calculate_costs_ (p : GAParams) (pop : List Chromosome) (costs : List Nat)
    (ranks : List Nat) (num_elite : Nat) : List Nat × List Nat × List Nat :=
  let r := eval_ranks p.cf pop ranks costs num_elite
    (p.population_size - num_elite)
  (r.1, sortRanksDesc r.1 ranks, r.2)

/-- `GA::mutate_` (GA.cpp:202-215): `while (mutation_no <= num_mutations_)`,
draw a rank; when it is non-elite, draw a gene position, flip that gene and
count the mutation; an elite draw is discarded without consuming the budget.
Termination depends on the stream (fuel, `Option`); the returned list logs
the effective flips as `(rank, gene position)` pairs in order. -/
def mutate_ (p : GAParams) (stream : Nat → Nat) :
    List Chromosome → List Nat → Nat → Nat → Nat →
      Option (List Chromosome × Nat × List (Nat × Nat))
  | pop, _ranks, mutation_no, i, 0 =>
      if mutation_no ≤ p.num_mutations then none else some (pop, i, [])
  | pop, ranks, mutation_no, i, fuel + 1 =>
      if mutation_no ≤ p.num_mutations then
        let rank_to_mutate := rng stream i (p.population_size - 1)
        if rank_to_mutate ≥ p.num_elite then
          let no := chromosome_at_rank_ ranks rank_to_mutate
          let c := pop.getD no []
          let pos := rng stream (i + 1) (p.chromosome_size - 1)
          let c' := c.set pos
            (if geneAt c pos = Gene.Out then Gene.In else Gene.Out)
          match mutate_ p stream (pop.set no c') ranks (mutation_no + 1)
            (i + 2) fuel with
          | none => none
          | some (pop', i', log) =>
              some (pop', i', (rank_to_mutate, pos) :: log)
        else mutate_ p stream pop ranks mutation_no (i + 1) fuel
      else some (pop, i, [])

/-- `GA::repair_` (GA.cpp:222-253): repair every chromosome with recorded
cost 0, and when at least one repair happened recompute the costs of the
whole population (elite included, `calculate_costs_()` with default 0) and
re-rank.  Returns (population, costs, ranks, log), the log holding the
repaired identifiers followed by the identifiers evaluated by the closing
recomputation. -/
def repair_ (p : GAParams) (pop : List Chromosome) (costs : List Nat)
    (ranks : List Nat) :
    Option (List Chromosome × List Nat × List Nat × List Nat) :=
  match repair_loop p.cf costs pop 0 false pop.length with
  | none => none
  | some (pop', flag, rep_log) =>
      if flag then
        let r := calculate_costs_ p pop' costs ranks 0
        some (pop', r.1, r.2.1, rep_log ++ r.2.2)
      else some (pop', costs, ranks, rep_log)

/-- One generation of `GA::new_population` (GA.cpp:61-85): record the best
cost of the starting population, build the next generation into a separate
buffer (elite-ranked identifiers untouched), swap it in, mutate, recompute
the non-elite costs and re-rank, then repair.  The returned log lists the
identifiers whose chromosome was passed to the cost function (or repaired)
after the swap. -/
def step (p : GAParams) (stream : Nat → Nat) (fuel : Nat) (s : GAState) :
    Option (GAState × List Nat) :=
  let best_costs' := s.best_costs ++
    [cost_ s.costs (chromosome_at_rank_ s.ranks 0)]
  match cross_loop p stream s.costs s.population s.ranks fuel
      s.population p.num_elite s.rng_index
      (p.population_size - p.num_elite) with
  | none => none
  | some (new_pop, i₁) =>
      match mutate_ p stream new_pop s.ranks 0 i₁ fuel with
      | none => none
      | some (pop₂, i₂, _mut_log) =>
          let cc := calculate_costs_ p pop₂ s.costs s.ranks p.num_elite
          match repair_ p pop₂ cc.1 cc.2.1 with
          | none => none
          | some (pop₃, costs₃, ranks₃, rep_log) =>
              some ({ population := pop₃, ranks := ranks₃, costs := costs₃,
                      best_costs := best_costs', rng_index := i₂ },
                    cc.2.2 ++ rep_log)

/-- `GA::new_population(num_generations)` (GA.cpp:57-86): the generation
loop. -/
def run (p : GAParams) (stream : Nat → Nat) (fuel : Nat) :
    Nat → GAState → Option GAState
  | 0, s => some s
  | g + 1, s =>
      match step p stream fuel s with
      | none => none
      | some (s', _log) => run p stream fuel g s'

/-- `GA::get_best_cost` (GA.h:37): `best_costs_.back()` (undefined behaviour
in C++ on an empty history; the model defaults to 0). -/
def get_best_cost (s : GAState) : Nat := s.best_costs.getLastD 0

/-- `GA::get_best_chromosome` (GA.h:40): the chromosome at rank 0. -/
def get_best_chromosome (s : GAState) : Chromosome :=
  s.population.getD (chromosome_at_rank_ s.ranks 0) []

/-- One random chromosome of `GA::rand_init_` (GA.cpp:128-135):
`std::generate` with `rng_(1) ? Gene::In : Gene::Out`, gene by gene. -/
def random_chromosome (stream : Nat → Nat) (i n : Nat) : Chromosome :=
  (List.range n).map
    (fun t => if rng stream (i + t) 1 = 0 then Gene.Out else Gene.In)

/-- `GA::set_parameters` (GA.cpp:28-54) followed by `GA::rand_init_`
(GA.cpp:128-135): fresh containers (`iota` ranking, cleared history and
costs), a uniformly random population (identifier order), a full cost pass
and the initial repair. -/
def set_parameters_init (p : GAParams) (stream : Nat → Nat) :
    Option GAState :=
  let pop₀ := (List.range p.population_size).map
    (fun no => random_chromosome stream (no * p.chromosome_size)
      p.chromosome_size)
  let ranks₀ := List.range p.population_size
  let costs₀ := List.replicate p.population_size 0
  let cc := calculate_costs_ p pop₀ costs₀ ranks₀ 0
  match repair_ p pop₀ cc.1 cc.2.1 with
  | none => none
  | some (pop₁, costs₁, ranks₁, _log) =>
      some { population := pop₁, ranks := ranks₁, costs := costs₁,
             best_costs := [],
             rng_index := p.population_size * p.chromosome_size }


lemma nodup_getD_ne (ranks : List Nat) (hnd : ranks.Nodup) (a b : Nat)
    (ha : a < ranks.length) (hb : b < ranks.length) (hab : a ≠ b) :
    ranks.getD a 0 ≠ ranks.getD b 0 := by
  rw [List.getD_eq_getElem _ _ ha, List.getD_eq_getElem _ _ hb]
  intro h
  exact hab (hnd.getElem_inj_iff.mp h)

lemma cross_loop_untouched (p : GAParams) (stream : Nat → Nat)
    (costs : List Nat) (pop : List Chromosome) (ranks : List Nat)
    (retry_fuel : Nat) :
    ∀ (left : Nat) (new_pop : List Chromosome) (rank i : Nat)
      (res : List Chromosome × Nat),
      cross_loop p stream costs pop ranks retry_fuel new_pop rank i left =
        some res →
      ∀ id, (∀ r, rank ≤ r → r < rank + left →
          chromosome_at_rank_ ranks r ≠ id) →
        res.1.getD id [] = new_pop.getD id [] := by
  intro left
  induction left with
  | zero =>
      intro new_pop rank i res h id _
      rw [cross_loop] at h
      injection h with h
      rw [← h]
  | succ left ih =>
      intro new_pop rank i res h id hid
      rw [cross_loop] at h
      simp only at h
      cases hd : draw_parent2 p stream costs
          (select_ p stream costs i).1 (select_ p stream costs i).2
          retry_fuel with
      | none => rw [hd] at h; exact absurd h (by simp)
      | some pr =>
          obtain ⟨parent2, i₂⟩ := pr
          rw [hd] at h
          simp only at h
          have hrest := ih _ _ _ _ h id
            (fun r hr1 hr2 => hid r (by omega) (by omega))
          rw [hrest]
          exact getD_set_ne_generic new_pop (chromosome_at_rank_ ranks rank)
            id _ [] (hid rank (Nat.le_refl rank) (by omega))

lemma cross_loop_length (p : GAParams) (stream : Nat → Nat)
    (costs : List Nat) (pop : List Chromosome) (ranks : List Nat)
    (retry_fuel : Nat) :
    ∀ (left : Nat) (new_pop : List Chromosome) (rank i : Nat)
      (res : List Chromosome × Nat),
      cross_loop p stream costs pop ranks retry_fuel new_pop rank i left =
        some res →
      res.1.length = new_pop.length := by
  intro left
  induction left with
  | zero =>
      intro new_pop rank i res h
      rw [cross_loop] at h
      injection h with h
      rw [← h]
  | succ left ih =>
      intro new_pop rank i res h
      rw [cross_loop] at h
      simp only at h
      cases hd : draw_parent2 p stream costs
          (select_ p stream costs i).1 (select_ p stream costs i).2
          retry_fuel with
      | none => rw [hd] at h; exact absurd h (by simp)
      | some pr =>
          obtain ⟨parent2, i₂⟩ := pr
          rw [hd] at h
          simp only at h
          have := ih _ _ _ _ h
          simpa using this

lemma mutate_untouched (p : GAParams) (stream : Nat → Nat) :
    ∀ (fuel : Nat) (pop : List Chromosome) (ranks : List Nat)
      (mutation_no i : Nat) (res : List Chromosome × Nat × List (Nat × Nat)),
      mutate_ p stream pop ranks mutation_no i fuel = some res →
      0 < p.population_size →
      ∀ id, (∀ r, p.num_elite ≤ r → r < p.population_size →
          chromosome_at_rank_ ranks r ≠ id) →
        res.1.getD id [] = pop.getD id [] := by
  intro fuel
  induction fuel with
  | zero =>
      intro pop ranks mutation_no i res h hpos id hid
      rw [mutate_] at h
      by_cases hc : mutation_no ≤ p.num_mutations
      · rw [if_pos hc] at h
        exact absurd h (by simp)
      · rw [if_neg hc] at h
        injection h with h
        rw [← h]
  | succ fuel ih =>
      intro pop ranks mutation_no i res h hpos id hid
      rw [mutate_] at h
      by_cases hc : mutation_no ≤ p.num_mutations
      · rw [if_pos hc] at h
        by_cases hr : rng stream i (p.population_size - 1) ≥ p.num_elite
        · rw [if_pos hr] at h
          simp only at h
          cases hm : mutate_ p stream
              (pop.set (chromosome_at_rank_ ranks
                  (rng stream i (p.population_size - 1)))
                ((pop.getD (chromosome_at_rank_ ranks
                    (rng stream i (p.population_size - 1))) []).set
                  (rng stream (i + 1) (p.chromosome_size - 1))
                  (if geneAt (pop.getD (chromosome_at_rank_ ranks
                      (rng stream i (p.population_size - 1))) [])
                      (rng stream (i + 1) (p.chromosome_size - 1)) = Gene.Out
                    then Gene.In else Gene.Out)))
              ranks (mutation_no + 1) (i + 2) fuel with
          | none => rw [hm] at h; exact absurd h (by simp)
          | some res' =>
              obtain ⟨pop', i', log'⟩ := res'
              rw [hm] at h
              simp only at h
              injection h with h
              have hdrawlt : rng stream i (p.population_size - 1) <
                  p.population_size := by
                unfold rng
                have : p.population_size - 1 + 1 = p.population_size := by omega
                rw [this]
                exact Nat.mod_lt _ hpos
              have hne : chromosome_at_rank_ ranks
                  (rng stream i (p.population_size - 1)) ≠ id :=
                hid _ hr hdrawlt
              have hrest := ih _ _ _ _ _ hm hpos id hid
              rw [← h]
              simp only
              rw [hrest]
              exact getD_set_ne_generic pop _ id _ [] hne
        · rw [if_neg hr] at h
          exact ih _ _ _ _ _ h hpos id hid
      · rw [if_neg hc] at h
        injection h with h
        rw [← h]

lemma mutate_length (p : GAParams) (stream : Nat → Nat) :
    ∀ (fuel : Nat) (pop : List Chromosome) (ranks : List Nat)
      (mutation_no i : Nat) (res : List Chromosome × Nat × List (Nat × Nat)),
      mutate_ p stream pop ranks mutation_no i fuel = some res →
      res.1.length = pop.length := by
  intro fuel
  induction fuel with
  | zero =>
      intro pop ranks mutation_no i res h
      rw [mutate_] at h
      by_cases hc : mutation_no ≤ p.num_mutations
      · rw [if_pos hc] at h
        exact absurd h (by simp)
      · rw [if_neg hc] at h
        injection h with h
        rw [← h]
  | succ fuel ih =>
      intro pop ranks mutation_no i res h
      rw [mutate_] at h
      by_cases hc : mutation_no ≤ p.num_mutations
      · rw [if_pos hc] at h
        by_cases hr : rng stream i (p.population_size - 1) ≥ p.num_elite
        · rw [if_pos hr] at h
          simp only at h
          cases hm : mutate_ p stream
              (pop.set (chromosome_at_rank_ ranks
                  (rng stream i (p.population_size - 1)))
                ((pop.getD (chromosome_at_rank_ ranks
                    (rng stream i (p.population_size - 1))) []).set
                  (rng stream (i + 1) (p.chromosome_size - 1))
                  (if geneAt (pop.getD (chromosome_at_rank_ ranks
                      (rng stream i (p.population_size - 1))) [])
                      (rng stream (i + 1) (p.chromosome_size - 1)) = Gene.Out
                    then Gene.In else Gene.Out)))
              ranks (mutation_no + 1) (i + 2) fuel with
          | none => rw [hm] at h; exact absurd h (by simp)
          | some res' =>
              obtain ⟨pop', i', log'⟩ := res'
              rw [hm] at h
              simp only at h
              injection h with h
              have := ih _ _ _ _ _ hm
              rw [← h]
              simpa using this
        · rw [if_neg hr] at h
          exact ih _ _ _ _ _ h
      · rw [if_neg hc] at h
        injection h with h
        rw [← h]

lemma eval_ranks_untouched (cf : CostFunction) (pop : List Chromosome)
    (ranks : List Nat) :
    ∀ (left : Nat) (costs : List Nat) (rank : Nat) (id : Nat),
      (∀ r, rank ≤ r → r < rank + left →
        chromosome_at_rank_ ranks r ≠ id) →
      (eval_ranks cf pop ranks costs rank left).1.getD id 0 =
        costs.getD id 0 := by
  intro left
  induction left with
  | zero => intro costs rank id _; rw [eval_ranks]
  | succ left ih =>
      intro costs rank id hid
      rw [eval_ranks]
      simp only
      rw [ih _ _ _ (fun r hr1 hr2 => hid r (by omega) (by omega))]
      exact getD_set_ne_generic costs _ id _ 0
        (hid rank (Nat.le_refl rank) (by omega))

/-- The loop counter `mutation_no` plus the number of effective flips still
to come always reaches `num_mutations_ + 1`: the loop exits only when
`mutation_no = num_mutations_ + 1`, having counted one effective flip per
increment. -/
lemma mutate_log_spec (p : GAParams) (stream : Nat → Nat) :
    ∀ (fuel : Nat) (pop : List Chromosome) (ranks : List Nat)
      (mutation_no i : Nat) (res : List Chromosome × Nat × List (Nat × Nat)),
      mutate_ p stream pop ranks mutation_no i fuel = some res →
      mutation_no + res.2.2.length = max mutation_no (p.num_mutations + 1) ∧
      ∀ e ∈ res.2.2, p.num_elite ≤ e.1 := by
  intro fuel
  induction fuel with
  | zero =>
      intro pop ranks mutation_no i res h
      rw [mutate_] at h
      by_cases hc : mutation_no ≤ p.num_mutations
      · rw [if_pos hc] at h
        exact absurd h (by simp)
      · rw [if_neg hc] at h
        injection h with h
        rw [← h]
        refine ⟨by simp; omega, ?_⟩
        intro e he
        exact absurd he (List.not_mem_nil e)
  | succ fuel ih =>
      intro pop ranks mutation_no i res h
      rw [mutate_] at h
      by_cases hc : mutation_no ≤ p.num_mutations
      · rw [if_pos hc] at h
        by_cases hr : rng stream i (p.population_size - 1) ≥ p.num_elite
        · rw [if_pos hr] at h
          simp only at h
          cases hm : mutate_ p stream
              (pop.set (chromosome_at_rank_ ranks
                  (rng stream i (p.population_size - 1)))
                ((pop.getD (chromosome_at_rank_ ranks
                    (rng stream i (p.population_size - 1))) []).set
                  (rng stream (i + 1) (p.chromosome_size - 1))
                  (if geneAt (pop.getD (chromosome_at_rank_ ranks
                      (rng stream i (p.population_size - 1))) [])
                      (rng stream (i + 1) (p.chromosome_size - 1)) = Gene.Out
                    then Gene.In else Gene.Out)))
              ranks (mutation_no + 1) (i + 2) fuel with
          | none => rw [hm] at h; exact absurd h (by simp)
          | some res' =>
              obtain ⟨pop', i', log'⟩ := res'
              rw [hm] at h
              simp only at h
              injection h with h
              obtain ⟨ih1, ih2⟩ := ih _ _ _ _ _ hm
              rw [← h]
              simp only [List.length_cons]
              constructor
              · simp only at ih1
                omega
              · intro e he
                rcases List.mem_cons.mp he with rfl | he'
                · exact hr
                · exact ih2 e he'
        · rw [if_neg hr] at h
          exact ih _ _ _ _ _ h
      · rw [if_neg hc] at h
        injection h with h
        rw [← h]
        refine ⟨by simp; omega, ?_⟩
        intro e he
        exact absurd he (List.not_mem_nil e)

/-- Destructuring of a successful generation step into its pipeline
stages. -/
lemma step_parts (p : GAParams) (stream : Nat → Nat) (fuel : Nat)
    (s s' : GAState) (log : List Nat)
    (h : step p stream fuel s = some (s', log)) :
    ∃ (new_pop : List Chromosome) (i₁ : Nat) (pop₂ : List Chromosome)
      (i₂ : Nat) (mut_log : List (Nat × Nat)) (pop₃ : List Chromosome)
      (costs₃ ranks₃ rep_log : List Nat),
      cross_loop p stream s.costs s.population s.ranks fuel s.population
        p.num_elite s.rng_index (p.population_size - p.num_elite) =
        some (new_pop, i₁) ∧
      mutate_ p stream new_pop s.ranks 0 i₁ fuel =
        some (pop₂, i₂, mut_log) ∧
      repair_ p pop₂ (calculate_costs_ p pop₂ s.costs s.ranks p.num_elite).1
        (calculate_costs_ p pop₂ s.costs s.ranks p.num_elite).2.1 =
        some (pop₃, costs₃, ranks₃, rep_log) ∧
      s' = { population := pop₃, ranks := ranks₃, costs := costs₃,
             best_costs := s.best_costs ++
               [cost_ s.costs (chromosome_at_rank_ s.ranks 0)],
             rng_index := i₂ } ∧
      log = (calculate_costs_ p pop₂ s.costs s.ranks p.num_elite).2.2 ++
        rep_log := by
  unfold step at h
  simp only at h
  cases hcl : cross_loop p stream s.costs s.population s.ranks fuel
      s.population p.num_elite s.rng_index
      (p.population_size - p.num_elite) with
  | none => rw [hcl] at h; exact absurd h (by simp)
  | some clres =>
      obtain ⟨new_pop, i₁⟩ := clres
      rw [hcl] at h
      simp only at h
      cases hm : mutate_ p stream new_pop s.ranks 0 i₁ fuel with
      | none => rw [hm] at h; exact absurd h (by simp)
      | some mres =>
          obtain ⟨pop₂, i₂, mut_log⟩ := mres
          rw [hm] at h
          simp only at h
          cases hr : repair_ p pop₂
              (calculate_costs_ p pop₂ s.costs s.ranks p.num_elite).1
              (calculate_costs_ p pop₂ s.costs s.ranks p.num_elite).2.1 with
          | none => rw [hr] at h; exact absurd h (by simp)
          | some rres =>
              obtain ⟨pop₃, costs₃, ranks₃, rep_log⟩ := rres
              rw [hr] at h
              simp only at h
              injection h with h
              injection h with h1 h2
              exact ⟨new_pop, i₁, pop₂, i₂, mut_log, pop₃, costs₃, ranks₃,
                rep_log, rfl, hm, hr, h1.symm, h2.symm⟩


/-! ### Concrete scenario

A deterministic two-item knapsack run used to evaluate the engine on concrete
inputs: items `(weight 1, value 5)` and `(weight 1, value 7)` with weight
capacity 1, population 2, one elite, tournament size 1, mutation budget 0
(mutation rate 0).  The stream below drives: random init to two copies of
`[In, Out]` (cost 5 each), then in the single generation parent selection
`0`, `1`, and one mutation draw hitting rank 1, gene 1. -/

def k8 : Knapsack :=
  { configurations := [(1, 5), (1, 7)], max_weight := 1, num_items := 2 }

def p8 : GAParams :=
  { cf := k8.toCF, population_size := 2, num_elite := 1,
    tournament_size := 1, num_mutations := 0, chromosome_size := 2 }

def st8 : Nat → Nat := fun i => List.getD [1, 0, 1, 0, 0, 1, 1, 1] i 0

/-- The state `set_parameters_init p8 st8` produces. -/
def s0lit : GAState :=
  { population := [[Gene.In, Gene.Out], [Gene.In, Gene.Out]],
    ranks := [0, 1], costs := [5, 5], best_costs := [], rng_index := 4 }

/-- The state one generation later. -/
def s1lit : GAState :=
  { population := [[Gene.In, Gene.Out], [Gene.Out, Gene.In]],
    ranks := [1, 0], costs := [5, 7], best_costs := [5], rng_index := 8 }

/-- C1 -- `GA::mutate_` applies `num_mutations_ + 1` effective flips to
non-elite ranks, not `num_mutations_`: the loop guard
`while (mutation_no <= num_mutations_)` (GA.cpp:204) is inclusive, so the
counter runs from 0 through `num_mutations_` performing one effective flip
per value.  Each flip lands on a rank `≥ num_elite_`; elite draws are
discarded without consuming budget, as the claim says. -/
theorem mutate_performs_budget_plus_one (p : GAParams) (stream : Nat → Nat)
    (fuel : Nat) (pop : List Chromosome) (ranks : List Nat) (i : Nat)
    (pop' : List Chromosome) (i' : Nat) (log : List (Nat × Nat))
    (h : mutate_ p stream pop ranks 0 i fuel = some (pop', i', log)) :
    log.length = p.num_mutations + 1 ∧ ∀ e ∈ log, p.num_elite ≤ e.1 := by
  obtain ⟨h1, h2⟩ := mutate_log_spec p stream fuel pop ranks 0 i
    (pop', i', log) h
  simp only at h1 h2
  exact ⟨by omega, h2⟩

/-- Witness for C1: with mutation budget 0 (mutation rate 0) one effective
flip is still performed. -/
theorem mutate_performs_budget_plus_one_witness :
    ([((1 : Nat), (1 : Nat))] : List (Nat × Nat)).length = p8.num_mutations + 1 ∧
      ∀ e ∈ ([((1 : Nat), (1 : Nat))] : List (Nat × Nat)), p8.num_elite ≤ e.1 :=
  mutate_performs_budget_plus_one p8 (fun i => List.getD [1, 1] i 0) 5
    [[Gene.Out, Gene.Out], [Gene.Out, Gene.Out]] [0, 1] 0
    [[Gene.Out, Gene.Out], [Gene.Out, Gene.In]] 2 [(1, 1)] (by decide)

/-- C2 -- After `new_population(g)` the best-cost history has grown by
exactly `g` entries (one per generation, recorded at the start of the
generation; the final population's best is never recorded), so a freshly
configured GA ends with `g` entries, not `g + 1`. -/
theorem run_history_length (p : GAParams) (stream : Nat → Nat) (fuel : Nat) :
    ∀ (g : Nat) (s s' : GAState), run p stream fuel g s = some s' →
      s'.best_costs.length = s.best_costs.length + g := by
  intro g
  induction g with
  | zero =>
      intro s s' h
      rw [run] at h
      injection h with h
      rw [← h]
      omega
  | succ g ih =>
      intro s s' h
      rw [run] at h
      cases hs : step p stream fuel s with
      | none => rw [hs] at h; exact absurd h (by simp)
      | some pr =>
          obtain ⟨s₁, log⟩ := pr
          rw [hs] at h
          simp only at h
          obtain ⟨_, _, _, _, _, _, _, _, _, -, -, -, hs₁, -⟩ :=
            step_parts p stream fuel s s₁ log hs
          have hlen := ih s₁ s' h
          rw [hs₁] at hlen
          simp at hlen
          omega

/-- Witness for C2: the concrete scenario runs one generation and has one
history entry. -/
theorem run_history_length_witness :
    s1lit.best_costs.length = s0lit.best_costs.length + 1 :=
  run_history_length p8 st8 5 1 s0lit s1lit (by decide)

/-- C8 -- After one generation on a configured GA, `get_best_cost()` returns
`best_costs_.back()` — the best cost of the population at the *start* of the
last generation — which differs from the cost of the chromosome currently at
rank 0 when the final generation improved on the elite (here 5 against 7);
`get_best_chromosome()` does return the rank-0 chromosome. -/
theorem get_best_cost_stale :
    set_parameters_init p8 st8 = some s0lit ∧
      run p8 st8 5 1 s0lit = some s1lit ∧
      get_best_cost s1lit = 5 ∧
      cost_ s1lit.costs (chromosome_at_rank_ s1lit.ranks 0) = 7 ∧
      get_best_chromosome s1lit =
        s1lit.population.getD (chromosome_at_rank_ s1lit.ranks 0) [] ∧
      (5 : Nat) ≠ 7 := by
  refine ⟨by decide, by decide, by decide, by decide, rfl, by decide⟩

/-- C4 (counterexample) -- In the concrete scenario a repair occurs during
the generation, so `GA::repair_` calls `calculate_costs_()` over the whole
population: the start-of-step elite identifier 0 appears in the step's
evaluation log, refuting "never re-evaluated during the step". -/
theorem elite_reevaluated_counterexample :
    set_parameters_init p8 st8 = some s0lit ∧
      p8.num_elite = 1 ∧
      chromosome_at_rank_ s0lit.ranks 0 = 0 ∧
      step p8 st8 5 s0lit = some (s1lit, [1, 1, 0, 1]) ∧
      0 ∈ [1, 1, 0, 1] := by
  refine ⟨by decide, by decide, by decide, by decide, by decide⟩


/-- C4 (amended) -- For every generation step from a configured state (the
hypotheses hold for every state the GA actually reaches: the containers have
`population_size` entries, the ranking is a permutation of identifiers, and
every zero-cost chromosome has been left entirely `Out` by the previous
repair with its one-gene re-extension infeasible), the chromosome stored at
an identifier ranked in `[0, num_elite)` at the start of the step is
bit-identical before and after the step: the crossover buffer and the
mutation loop never write to it, and repair either skips it (nonzero cost)
or restores it unchanged.  Re-evaluation is *not* part of this theorem: the
counterexample shows elite slots are re-evaluated whenever any repair
occurs. -/
theorem elite_preserved (p : GAParams) (stream : Nat → Nat) (fuel : Nat)
    (s s' : GAState) (log : List Nat) (j : Nat)
    (hpop : s.population.length = p.population_size)
    (hranks : s.ranks.length = p.population_size)
    (hnodup : s.ranks.Nodup)
    (hj : j < p.num_elite)
    (hne : p.num_elite ≤ p.population_size)
    (hcs : 1 ≤ p.chromosome_size)
    (hrb : s.ranks.getD j 0 < p.population_size)
    (hz : cost_ s.costs (s.ranks.getD j 0) ≠ 0 ∨
      (s.population.getD (s.ranks.getD j 0) [] =
          List.replicate p.chromosome_size Gene.Out ∧
        p.cf.eval (List.replicate p.chromosome_size Gene.Out) = 0 ∧
        p.cf.eval ((List.replicate p.chromosome_size Gene.Out).set
          (p.chromosome_size - 1) Gene.In) = 0))
    (hstep : step p stream fuel s = some (s', log)) :
    s'.population.getD (s.ranks.getD j 0) [] =
      s.population.getD (s.ranks.getD j 0) [] := by
  obtain ⟨new_pop, i₁, pop₂, i₂, mut_log, pop₃, costs₃, ranks₃, rep_log,
    hcl, hm, hr, hs', -⟩ := step_parts p stream fuel s s' log hstep
  have hpos : 0 < p.population_size := by omega
  have hneq : ∀ r, p.num_elite ≤ r → r < p.population_size →
      chromosome_at_rank_ s.ranks r ≠ s.ranks.getD j 0 := by
    intro r hr1 hr2
    unfold chromosome_at_rank_
    exact nodup_getD_ne s.ranks hnodup r j (by omega) (by omega) (by omega)
  have h1 : new_pop.getD (s.ranks.getD j 0) [] =
      s.population.getD (s.ranks.getD j 0) [] :=
    cross_loop_untouched p stream s.costs s.population s.ranks fuel
      (p.population_size - p.num_elite) s.population p.num_elite s.rng_index
      (new_pop, i₁) hcl (s.ranks.getD j 0)
      (fun r hr1 hr2 => hneq r hr1 (by omega))
  have h2 : pop₂.getD (s.ranks.getD j 0) [] =
      new_pop.getD (s.ranks.getD j 0) [] :=
    mutate_untouched p stream fuel new_pop s.ranks 0 i₁ (pop₂, i₂, mut_log)
      hm hpos (s.ranks.getD j 0) hneq
  have h3 : (calculate_costs_ p pop₂ s.costs s.ranks p.num_elite).1.getD
      (s.ranks.getD j 0) 0 = s.costs.getD (s.ranks.getD j 0) 0 := by
    unfold calculate_costs_
    simp only
    exact eval_ranks_untouched p.cf pop₂ s.ranks
      (p.population_size - p.num_elite) s.costs p.num_elite
      (s.ranks.getD j 0) (fun r hr1 hr2 => hneq r hr1 (by omega))
  have ha := mutate_length p stream fuel new_pop s.ranks 0 i₁
    (pop₂, i₂, mut_log) hm
  have hb := cross_loop_length p stream s.costs s.population s.ranks fuel
    (p.population_size - p.num_elite) s.population p.num_elite s.rng_index
    (new_pop, i₁) hcl
  simp only at ha hb
  have hlen2 : pop₂.length = p.population_size := by omega
  unfold repair_ at hr
  cases hrl : repair_loop p.cf
      (calculate_costs_ p pop₂ s.costs s.ranks p.num_elite).1 pop₂ 0 false
      pop₂.length with
  | none => rw [hrl] at hr; exact absurd hr (by simp)
  | some rl =>
      obtain ⟨pop', flag, rl_log⟩ := rl
      rw [hrl] at hr
      simp only at hr
      have hpop3 : pop' = pop₃ := by
        cases flag with
        | false =>
            simp only [Bool.false_eq_true, if_false] at hr
            obtain ⟨e1, -⟩ := Prod.mk.injEq .. ▸ (Option.some.injEq .. ▸ hr)
            exact e1
        | true =>
            simp only [if_true] at hr
            obtain ⟨e1, -⟩ := Prod.mk.injEq .. ▸ (Option.some.injEq .. ▸ hr)
            exact e1
      obtain ⟨L1, L2, L3, L4⟩ := repair_loop_spec p.cf
        (calculate_costs_ p pop₂ s.costs s.ranks p.num_elite).1
        pop₂.length pop₂ 0 false pop' flag rl_log (by omega) hrl
      have hid_lt : s.ranks.getD j 0 < pop₂.length := by omega
      have hmain := L3 (s.ranks.getD j 0) (by omega) hid_lt
      rw [hs']
      show pop₃.getD (s.ranks.getD j 0) [] =
        s.population.getD (s.ranks.getD j 0) []
      rw [← hpop3]
      rcases hz with hz | hz
      · have hcost := hmain.2 (by
          rw [h3]
          unfold cost_ at hz
          exact hz)
        rw [hcost, h2, h1]
      · by_cases hc0 :
          (calculate_costs_ p pop₂ s.costs s.ranks p.num_elite).1.getD
            (s.ranks.getD j 0) 0 = 0
        · have hrepc := hmain.1 hc0
          rw [h2, h1, hz.1] at hrepc
          rw [repair_chromosome_allOut p.cf p.chromosome_size hcs hz.2.1
            hz.2.2] at hrepc
          injection hrepc with hrepc
          rw [← hrepc, hz.1]
        · have hcost := hmain.2 hc0
          rw [hcost, h2, h1]

/-- Witness for C4 (amended): in the concrete scenario the elite identifier's
chromosome is unchanged by the generation even though a repair occurred. -/
theorem elite_preserved_witness :
    s1lit.population.getD (s0lit.ranks.getD 0 0) [] =
      s0lit.population.getD (s0lit.ranks.getD 0 0) [] :=
  elite_preserved p8 st8 5 s0lit s1lit [1, 1, 0, 1] 0 (by decide) (by decide)
    (by decide) (by decide) (by decide) (by decide) (by decide)
    (Or.inl (by decide)) (by decide)

lemma geneAt_append_left (l₁ l₂ : Chromosome) (t : Nat) (h : t < l₁.length) :
    geneAt (l₁ ++ l₂) t = geneAt l₁ t := by
  unfold geneAt
  rw [List.getD_eq_getElem?_getD, List.getD_eq_getElem?_getD,
    List.getElem?_append_left h]

lemma geneAt_append_right (l₁ l₂ : Chromosome) (t : Nat)
    (h : l₁.length ≤ t) :
    geneAt (l₁ ++ l₂) t = geneAt l₂ (t - l₁.length) := by
  unfold geneAt
  rw [List.getD_eq_getElem?_getD, List.getD_eq_getElem?_getD,
    List.getElem?_append_right h]

lemma geneAt_take_lt (l : Chromosome) (n t : Nat) (h : t < n) :
    geneAt (l.take n) t = geneAt l t := by
  unfold geneAt
  rw [List.getD_eq_getElem?_getD, List.getD_eq_getElem?_getD,
    List.getElem?_take_of_lt h]

lemma geneAt_drop (l : Chromosome) (n t : Nat) :
    geneAt (l.drop n) t = geneAt l (n + t) := by
  unfold geneAt
  rw [List.getD_eq_getElem?_getD, List.getD_eq_getElem?_getD,
    List.getElem?_drop]

/-- The single-point merge around `mid = (n + 2 - 1) / 2 = ceil(n / 2)`. -/
lemma take_drop_merge_spec (f o : Chromosome) (n : Nat)
    (hf : f.length = n) (ho : o.length = n) :
    (f.take ((n + 2 - 1) / 2) ++ o.drop ((n + 2 - 1) / 2)).length = n ∧
    ∀ t, t < n →
      geneAt (f.take ((n + 2 - 1) / 2) ++ o.drop ((n + 2 - 1) / 2)) t =
        if t < (n + 1) / 2 then geneAt f t else geneAt o t := by
  have hmid : (n + 2 - 1) / 2 = (n + 1) / 2 := by omega
  rw [hmid]
  have hm : (n + 1) / 2 ≤ n := by omega
  constructor
  · rw [List.length_append, List.length_take, List.length_drop, hf, ho]
    omega
  · intro t ht
    by_cases htm : t < (n + 1) / 2
    · rw [if_pos htm]
      rw [geneAt_append_left]
      · exact geneAt_take_lt f _ t htm
      · rw [List.length_take, hf]
        omega
    · rw [if_neg htm]
      rw [geneAt_append_right]
      · rw [List.length_take, hf]
        have hminv : min ((n + 1) / 2) n = (n + 1) / 2 := by omega
        rw [hminv, geneAt_drop]
        congr 1
        omega
      · rw [List.length_take, hf]
        omega

/-- C3 (counterexample) -- For chromosome length `L = 2` and parents
`[Out, Out]` (cost 5) against `[In, In]` (cost 3), the code's child is
`[Out, In]` (midpoint `(L + 1) / 2 = 1`), but the claimed
`ceil((L + 1) / 2) = (L + 2) / 2 = 2` genes from parent 1 would give
`[Out, Out]`: the claimed midpoint formula fails on even lengths. -/
theorem cross_midpoint_counterexample :
    cross_ p8 [5, 3] [[Gene.Out, Gene.Out], [Gene.In, Gene.In]] 0 1 =
        [Gene.Out, Gene.In] ∧
      ([Gene.Out, Gene.In] : Chromosome) ≠
        ([Gene.Out, Gene.Out] : Chromosome).take ((2 + 1 + 1) / 2) ++
          ([Gene.In, Gene.In] : Chromosome).drop ((2 + 1 + 1) / 2) := by
  refine ⟨by decide, by decide⟩

/-- C3 (amended) -- The parent with the higher recorded cost is parent 1 (a
cost tie keeps the call order: the swap happens only when the second
argument's cost is strictly greater), the operator draws no randomness, and
the child is the first `ceil(L/2) = floor((L+1)/2)` genes of parent 1
followed by the remaining genes of parent 2 — the extra middle gene comes
from the fitter parent only on odd lengths. -/
theorem cross_takes_ceil_half (p : GAParams) (costs : List Nat)
    (pop : List Chromosome) (a b : Nat)
    (ha : (pop.getD a []).length = p.chromosome_size)
    (hb : (pop.getD b []).length = p.chromosome_size) :
    (cross_ p costs pop a b).length = p.chromosome_size ∧
    ∀ t, t < p.chromosome_size →
      geneAt (cross_ p costs pop a b) t =
        if t < (p.chromosome_size + 1) / 2 then
          geneAt (if cost_ costs b > cost_ costs a then pop.getD b []
            else pop.getD a []) t
        else
          geneAt (if cost_ costs b > cost_ costs a then pop.getD a []
            else pop.getD b []) t := by
  unfold cross_
  simp only
  by_cases hc : cost_ costs b > cost_ costs a
  · rw [if_pos hc, if_pos hc]
    simp only
    rcases take_drop_merge_spec (pop.getD b []) (pop.getD a [])
      p.chromosome_size hb ha with ⟨hl, hp⟩
    refine ⟨hl, ?_⟩
    intro t ht
    rw [if_pos hc]
    exact hp t ht
  · rw [if_neg hc, if_neg hc]
    simp only
    rcases take_drop_merge_spec (pop.getD a []) (pop.getD b [])
      p.chromosome_size ha hb with ⟨hl, hp⟩
    refine ⟨hl, ?_⟩
    intro t ht
    rw [if_neg hc]
    exact hp t ht

/-- Witness for C3 (amended): the concrete crossover of the counterexample,
characterised pointwise. -/
theorem cross_takes_ceil_half_witness :
    (cross_ p8 [5, 3] [[Gene.Out, Gene.Out], [Gene.In, Gene.In]] 0 1).length =
        p8.chromosome_size ∧
      ∀ t, t < p8.chromosome_size →
        geneAt (cross_ p8 [5, 3]
          [[Gene.Out, Gene.Out], [Gene.In, Gene.In]] 0 1) t =
          if t < (p8.chromosome_size + 1) / 2 then
            geneAt (if cost_ [5, 3] 1 > cost_ [5, 3] 0 then
              [[Gene.Out, Gene.Out], [Gene.In, Gene.In]].getD 1 []
              else [[Gene.Out, Gene.Out], [Gene.In, Gene.In]].getD 0 []) t
          else
            geneAt (if cost_ [5, 3] 1 > cost_ [5, 3] 0 then
              [[Gene.Out, Gene.Out], [Gene.In, Gene.In]].getD 0 []
              else [[Gene.Out, Gene.Out], [Gene.In, Gene.In]].getD 1 []) t :=
  cross_takes_ceil_half p8 [5, 3] [[Gene.Out, Gene.Out], [Gene.In, Gene.In]]
    0 1 (by decide) (by decide)


end KnapsackGA
